import Mathlib

/-!
Verification of the scan / normalize / aggregate / recommend pipeline.

A shallow embedding of the analysis core of the lawyer-practice-optimizer
repository, together with theorems settling the specification claims.

Embedded components and their sources:

* `fs_analyzer.py` — the filesystem scanner (`scan_filesystem`,
  `_categorize_file`, `_analyze_depth`, `_analyze_naming_patterns`,
  `_detect_organization_issues`, `_generate_file_recommendations`).
* `cloud_scanner.py` — the Google Drive quota computation and
  `_detect_drive_issues` / `_generate_drive_recommendations`.
* `src/email_scanner.py` — `_generate_email_recommendations`.
* `src/system_coordinator.py` — `_consolidate_findings`,
  `_create_prioritized_recommendations` and the summary fields of
  `run_full_analysis`.
* `src/analyzer.py` — `_calculate_time_savings`.

Modelling conventions:

* Python numbers are embedded as `Nat` (byte counts, list lengths) and `ℚ`
  (float arithmetic; Python `/` is true division, embedded as exact division
  on `ℚ`).
* Python dicts keyed by strings are embedded as insertion-ordered
  association lists; `dict.get(k, d)` becomes an `Option`-valued lookup with
  a default.
* `sorted(xs, key=k, reverse=True)` (CPython's stable sort) is embedded as
  `List.insertionSort` with the relation "key of the left argument is
  greater than or equal to the key of the right argument": both are stable
  sorts for the same total preorder, hence produce the same list.
* The MD5 content fingerprint of `_get_file_hash` is embedded as an
  injective digest: a file's content is a `Nat` and the fingerprint is the
  content itself.  A file whose content cannot be read
  (the `except` branch returning `None`) is a file with `content = none`.
* Display-only f-string fields (`description`, `impact`, `title`) are not
  carried by the embedded records, except where their computation can raise
  (a division), in which case the division is kept as an explicit effect.
* Filesystem traversal, timestamps and network transport are I/O and are
  represented by the data they deliver: a scan's input is the walked
  directory list itself.
-/

/-! ## Python string primitives

Lean's built-in `String` functions are implemented over byte positions and
do not reduce inside the kernel, so the Python string operations used by the
analyzers are re-implemented structurally over `List Char`. -/

/-- Lexicographic strict comparison of character lists by code point:
Python's `<` on `str`. -/
def pyStrLtL : List Char → List Char → Bool
  | [], [] => false
  | [], _ :: _ => true
  | _ :: _, [] => false
  | a :: as, b :: bs =>
    if a.toNat < b.toNat then true
    else if b.toNat < a.toNat then false
    else pyStrLtL as bs

/-- Python's `<` on strings. -/
def pyStrLt (a b : String) : Bool := pyStrLtL a.data b.data

/-- Source: `p` is a prefix of `t`. -/
def isPrefixCh : List Char → List Char → Bool
  | [], _ => true
  | _ :: _, [] => false
  | p :: ps, t :: ts => p = t && isPrefixCh ps ts

/-- Source: `p` occurs as a contiguous substring of the text. -/
def containsCh (p : List Char) : List Char → Bool
  | [] => isPrefixCh p []
  | c :: ts => isPrefixCh p (c :: ts) || containsCh p ts

/-- Python's `sub in s` substring test. -/
def pyContains (s sub : String) : Bool := containsCh sub.data s.data

/-- Python's `s.endswith(suf)`. -/
def pyEndsWith (s suf : String) : Bool := isPrefixCh suf.data.reverse s.data.reverse

/-- Python's `s.lower()` (ASCII, as produced by the scanners). -/
def pyLower (s : String) : String := ⟨s.data.map Char.toLower⟩

/-- Index of the last occurrence of `c` starting from offset `i`:
helper for Python's `str.rfind`. -/
def lastIdxOfAux (c : Char) : List Char → Nat → Option Nat
  | [], _ => none
  | x :: xs, i =>
    match lastIdxOfAux c xs (i + 1) with
    | some j => some j
    | none => if x = c then some i else none

/-- Index of the last occurrence of `c`: Python's `str.rfind`. -/
def lastIdxOf (c : Char) (cs : List Char) : Option Nat := lastIdxOfAux c cs 0

/-- Source: `pathlib` stem/suffix split of one path component: the suffix starts at
the last dot, provided that dot is neither the first nor the last character
of the name (`Path('.bashrc').suffix == ''`, `Path('a.tar.gz').suffix ==
'.gz'`). -/
def pySplitExt (name : String) : String × String :=
  let cs := name.data
  match lastIdxOf '.' cs with
  | some i =>
    if 0 < i ∧ i + 1 < cs.length then (⟨cs.take i⟩, ⟨cs.drop i⟩) else (name, "")
  | none => (name, "")

/-- Source: `pathlib.Path(name).suffix`. -/
def pySuffix (name : String) : String := (pySplitExt name).2

/-- Source: `pathlib.Path(name).stem`. -/
def pyStem (name : String) : String := (pySplitExt name).1

/-- Source: `pathlib.Path(p).name`: the final component of a POSIX path. -/
def pyBaseName (p : String) : String := ⟨(p.data.reverse.takeWhile (· ≠ '/')).reverse⟩

/-- Split a character list at every occurrence of `c` (Python
`str.split(c)` on a single-character separator). -/
def splitCh (c : Char) : List Char → List (List Char)
  | [] => [[]]
  | x :: xs =>
    let r := splitCh c xs
    if x = c then [] :: r
    else
      match r with
      | [] => [[x]]
      | h :: t => (x :: h) :: t

/-- Source: `len(PurePosixPath(rel).parts)` for a non-empty relative POSIX path:
the number of components. -/
def pyPartsLen (s : String) : Nat := (splitCh '/' s.data).length

/-- Python's `s.count('/')` (single-character needle). -/
def countSlash (s : String) : Nat := s.data.count '/'

/-! ## Insertion-ordered maps

Python dicts preserve key insertion order; both `dict` and
`defaultdict` are embedded as association lists where a fresh key is
appended at the end. -/

/-- A `defaultdict(int)` keyed by strings. -/
abbrev CountMap := List (String × Nat)

/-- Source: `m[k] += v` on a `defaultdict(int)`. -/
def bump (k : String) (v : Nat) : CountMap → CountMap
  | [] => [(k, v)]
  | (k', n) :: rest => if k' = k then (k', n + v) :: rest else (k', n) :: bump k v rest

/-- Source: `m.get(k, 0)` on a counter. -/
def lookupCount (m : CountMap) (k : String) : Nat :=
  ((m.find? (fun p => p.1 = k)).map (fun p => p.2)).getD 0

/-- Source: `m.get(k)` on an association list. -/
def lookupKey {α : Type} (m : List (String × α)) (k : String) : Option α :=
  (m.find? (fun p => p.1 = k)).map (fun p => p.2)

/-- Source: `m[k] = v` (assign, replacing an existing binding, else append). -/
def setKey {α : Type} (k : String) (v : α) : List (String × α) → List (String × α)
  | [] => [(k, v)]
  | (k', w) :: rest => if k' = k then (k', v) :: rest else (k', w) :: setKey k v rest

/-! ## Data model (`fs_analyzer.py`) -/

/-- One file delivered by the walk: its name, its `stat` size, and its
content fingerprint (`none` when `_get_file_hash` fails to read it). -/
structure FsFile where
  name : String
  size : Nat
  content : Option Nat
  deriving DecidableEq, Repr

/-- One `os.walk` step after the hidden-directory pruning: `dir` is the
`current_dir` string (`'root'` at the scan root, otherwise the relative
path with `/` separators) and `files` the directory's file list. -/
structure WalkDir where
  dir : String
  files : List FsFile
  deriving DecidableEq, Repr

/-- Source: `results['directories'][d]` record. -/
structure DirRecord where
  file_count : Nat
  total_size : Nat
  depth : Nat
  deriving DecidableEq, Repr

/-- Source: `results['file_paths']` item (the `modified` timestamp is I/O and not
carried). -/
structure FileRecord where
  path : String
  size : Nat
  category : String
  extension : String
  dir : String
  deriving DecidableEq, Repr

/-- Source: `dir_structure[d]` item. -/
structure DirFileRecord where
  filename : String
  size : Nat
  category : String
  deriving DecidableEq, Repr

/-- Source: `results['duplicates']` item.  The source stores the first 16 hex
characters of the MD5; the model stores the fingerprint itself.  The
`total_size_bytes` field re-stats each path; within one run that returns
the recorded size of the entry. -/
structure DupGroup where
  hash : Nat
  file_count : Nat
  total_size_bytes : Nat
  paths : List String
  deriving DecidableEq, Repr

/-- Source: `deep_folders` / `shallow_folders` item of the depth analysis. -/
structure FolderRecord where
  path : String
  depth : Nat
  file_count : Nat
  deriving DecidableEq, Repr

/-- Source: `_analyze_depth` result. -/
structure DepthAnalysis where
  avg_depth : ℚ
  max_depth : Nat
  deep_folders : List FolderRecord
  shallow_folders : List FolderRecord
  optimal_depth : Nat
  depth_distribution : List (Nat × Nat)
  deriving DecidableEq, Repr

/-- Source: `_analyze_naming_patterns` result: percentages over the sample. -/
structure NamingPatterns where
  date_in_name : ℚ
  client_name_in_name : ℚ
  case_number_in_name : ℚ
  spaces_in_name : ℚ
  special_chars_in_name : ℚ
  descriptive_names : ℚ
  generic_names : ℚ
  deriving DecidableEq, Repr

/-- One organization issue (`severity`, `issue` kind); the `description`
and `impact` display strings are not carried. -/
structure Finding where
  severity : String
  issue : String
  deriving DecidableEq, Repr

/-- One per-source recommendation as consumed downstream (the `title` and
`description` display strings are not carried). -/
structure Recommendation where
  priority : String
  area : String
  savings : ℚ
  implementation_time : String
  difficulty : String
  deriving DecidableEq, Repr

/-- The `results` dict of `scan_filesystem` (the `scan_timestamp` and
`error` fields are I/O / failure bookkeeping). -/
structure FsResults where
  scan_path : String
  total_files : Nat
  total_dirs : Nat
  total_size_bytes : Nat
  files_by_type : CountMap
  files_by_category : CountMap
  size_by_category : CountMap
  directories : List (String × DirRecord)
  duplicates : List DupGroup
  organization_issues : List Finding
  file_paths : List FileRecord
  depth_analysis : DepthAnalysis
  naming_patterns : NamingPatterns
  recommendations : List Recommendation
  scan_complete : Bool
  deriving DecidableEq, Repr

/-! ## The walk loop of `scan_filesystem` (`fs_analyzer.py`, lines 62-146) -/

/-- Loop state of the walk. `file_count` is the loop counter (equal to
`results['total_files']`: both are incremented once per processed file). -/
structure WalkState where
  file_count : Nat
  total_size_bytes : Nat
  files_by_type : CountMap
  files_by_category : CountMap
  size_by_category : CountMap
  directories : List (String × DirRecord)
  file_paths : List FileRecord
  file_hashes : List (Nat × List (String × Nat))
  dir_structure : List (String × List DirFileRecord)
  deriving DecidableEq, Repr

def initWalkState : WalkState :=
  { file_count := 0, total_size_bytes := 0, files_by_type := []
    files_by_category := [], size_by_category := [], directories := []
    file_paths := [], file_hashes := [], dir_structure := [] }

/-- Source: `self.excluded_extensions` check:
`any(filename.endswith(ext) for ext in excluded_extensions)`. -/
def isExcludedName (name : String) : Bool :=
  pyEndsWith name ".tmp" || pyEndsWith name ".temp" ||
  pyEndsWith name ".cache" || pyEndsWith name ".lock"

/-- Source: `str(Path(root) / filename)` with `root = scan_path / rel_path`. -/
def fullPath (scanPath dir name : String) : String :=
  if dir = "root" then scanPath ++ "/" ++ name
  else scanPath ++ "/" ++ dir ++ "/" ++ name

/-- Source: `_categorize_file` (`fs_analyzer.py`, lines 183-228): first matching
rule wins, `other` is the fallback. -/
def categorize_file (path name : String) : String :=
  let ext := pyLower (pySuffix name)
  let p := pyLower path
  if ext ∈ [".pdf", ".doc", ".docx", ".rtf"] then
    if pyContains p "contract" || pyContains p "agreement" then "legal_contracts"
    else if pyContains p "pleading" || pyContains p "motion" then "legal_pleadings"
    else if pyContains p "discovery" then "legal_discovery"
    else if pyContains p "letter" then "legal_correspondence"
    else "documents"
  else if ext ∈ [".jpg", ".jpeg", ".png", ".gif", ".bmp", ".tiff"] then "images"
  else if ext ∈ [".xls", ".xlsx", ".csv"] then
    if pyContains p "billing" || pyContains p "invoice" then "billing"
    else "spreadsheets"
  else if ext ∈ [".ppt", ".pptx"] then "presentations"
  else if ext ∈ [".zip", ".rar", ".7z", ".tar", ".gz"] then "archives"
  else if ext ∈ [".exe", ".msi", ".app", ".bat", ".sh"] then "executables"
  else if ext ∈ [".py", ".js", ".html", ".css", ".java", ".cpp", ".c"] then "code"
  else "other"

/-- Append `(path, size)` to the `file_hashes[h]` bucket
(`defaultdict(list)`: a fresh fingerprint key is appended at the end). -/
def bucketPush (h : Nat) (x : String × Nat) :
    List (Nat × List (String × Nat)) → List (Nat × List (String × Nat))
  | [] => [(h, [x])]
  | (k, ms) :: rest =>
    if k = h then (k, ms ++ [x]) :: rest else (k, ms) :: bucketPush h x rest

/-- Source: `results['directories'][dir]['total_size'] += size` (the key exists:
it was created when the directory's file list was seen to be non-empty). -/
def bumpDirSize (dir : String) (size : Nat) :
    List (String × DirRecord) → List (String × DirRecord)
  | [] => []
  | (k, r) :: rest =>
    if k = dir then (k, { r with total_size := r.total_size + size }) :: rest
    else (k, r) :: bumpDirSize dir size rest

/-- Source: `dir_structure[dir].append(...)` on a `defaultdict(list)`. -/
def dirStructPush (dir : String) (x : DirFileRecord) :
    List (String × List DirFileRecord) → List (String × List DirFileRecord)
  | [] => [(dir, [x])]
  | (k, ms) :: rest =>
    if k = dir then (k, ms ++ [x]) :: rest else (k, ms) :: dirStructPush dir x rest

/-- Body of the per-file loop for one file that passed the cap and the
excluded-extension filter (`fs_analyzer.py`, lines 92-136). -/
def processFile (scanPath dir : String) (st : WalkState) (f : FsFile) : WalkState :=
  let path := fullPath scanPath dir f.name
  let ext := pyLower (pySuffix f.name)
  let category := categorize_file path f.name
  { file_count := st.file_count + 1
    total_size_bytes := st.total_size_bytes + f.size
    directories := bumpDirSize dir f.size st.directories
    files_by_category := bump category 1 st.files_by_category
    size_by_category := bump category f.size st.size_by_category
    files_by_type := bump ext 1 st.files_by_type
    file_paths := st.file_paths ++ [⟨path, f.size, category, ext, dir⟩]
    file_hashes :=
      if 1024 < f.size then
        match f.content with
        | some h => bucketPush h (path, f.size) st.file_hashes
        | none => st.file_hashes
      else st.file_hashes
    dir_structure := dirStructPush dir ⟨f.name, f.size, category⟩ st.dir_structure }

/-- The per-file loop: `break` once `file_count` reaches `max_files`,
`continue` on excluded extensions. -/
def processFiles (scanPath dir : String) (maxFiles : Nat) (st : WalkState) :
    List FsFile → WalkState
  | [] => st
  | f :: fs =>
    if maxFiles ≤ st.file_count then st
    else if isExcludedName f.name then processFiles scanPath dir maxFiles st fs
    else processFiles scanPath dir maxFiles (processFile scanPath dir st f) fs

/-- Source: `len(rel_path.parts) if str(rel_path) != '.' else 0`. -/
def dirDepthParts (dir : String) : Nat := if dir = "root" then 0 else pyPartsLen dir

/-- One `os.walk` iteration: record the directory (when it has files),
then run the per-file loop. -/
def processDir (scanPath : String) (maxFiles : Nat) (st : WalkState) (d : WalkDir) :
    WalkState :=
  let st' :=
    if d.files = [] then st
    else { st with
           directories := setKey d.dir ⟨d.files.length, 0, dirDepthParts d.dir⟩
             st.directories }
  processFiles scanPath d.dir maxFiles st' d.files

def walkFold (scanPath : String) (maxFiles : Nat) (walk : List WalkDir) : WalkState :=
  walk.foldl (processDir scanPath maxFiles) initWalkState

/-! ## `_analyze_depth` (`fs_analyzer.py`, lines 241-280) -/

/-- Source: `analysis['depth_distribution'][depth] += 1` on a `defaultdict(int)`
keyed by depths. -/
def bumpNat (k : Nat) : List (Nat × Nat) → List (Nat × Nat)
  | [] => [(k, 1)]
  | (k', n) :: rest => if k' = k then (k', n + 1) :: rest else (k', n) :: bumpNat k rest

def analyze_depth (ds : List (String × List DirFileRecord)) : DepthAnalysis :=
  let dist := ds.foldl (fun acc p => bumpNat (countSlash p.1) acc) []
  let maxd := ds.foldl (fun m p => if m < countSlash p.1 then countSlash p.1 else m) 0
  let avg : ℚ :=
    if ds = [] then 0
    else ((ds.map (fun p => (countSlash p.1 : ℚ))).sum) / (ds.length : ℚ)
  let deepShallow :=
    ds.foldl
      (fun (acc : List FolderRecord × List FolderRecord) p =>
        let depth := countSlash p.1
        if 6 ≤ depth then (acc.1 ++ [⟨p.1, depth, p.2.length⟩], acc.2)
        else if depth ≤ 1 ∧ 20 < p.2.length then
          (acc.1, acc.2 ++ [⟨p.1, depth, p.2.length⟩])
        else acc)
      ([], [])
  { avg_depth := avg, max_depth := maxd, deep_folders := deepShallow.1
    shallow_folders := deepShallow.2, optimal_depth := 3, depth_distribution := dist }

/-! ## `_analyze_naming_patterns` (`fs_analyzer.py`, lines 282-331) -/

/-- Raw counters accumulated over the sample, before the percentage
conversion. -/
structure NamingCounts where
  date_in_name : Nat
  client_name_in_name : Nat
  case_number_in_name : Nat
  spaces_in_name : Nat
  special_chars_in_name : Nat
  descriptive_names : Nat
  generic_names : Nat
  deriving DecidableEq, Repr

def initNamingCounts : NamingCounts := ⟨0, 0, 0, 0, 0, 0, 0⟩

/-- One iteration of the naming loop for the file record `r`. -/
def namingStep (c : NamingCounts) (r : FileRecord) : NamingCounts :=
  let filename := pyBaseName r.path
  let fl := pyLower filename
  let stem := pyStem filename
  let stemLen := stem.data.length
  { date_in_name := c.date_in_name +
      (if pyContains fl "202" || pyContains fl "2024" || pyContains fl "2025" then 1 else 0)
    client_name_in_name := c.client_name_in_name +
      (if pyContains fl "client" || pyContains fl "matter" || pyContains fl "case" then 1
       else 0)
    case_number_in_name := c.case_number_in_name +
      (if (filename.data.any Char.isDigit) && pyContains filename "-" then 1 else 0)
    spaces_in_name := c.spaces_in_name + (if pyContains stem " " then 1 else 0)
    special_chars_in_name := c.special_chars_in_name +
      (if stem.data.any (fun ch => ch ∈ ['!', '@', '#', '$', '%']) then 1 else 0)
    descriptive_names := c.descriptive_names + (if 15 < stemLen then 1 else 0)
    generic_names := c.generic_names +
      (if 15 < stemLen then 0 else if stemLen < 10 then 1 else 0) }

/-- Source: `total_sample = len(sample_files) if sample_files else 1`: the guarded
denominator of the percentage conversion. -/
def namingDenom (sample : List FileRecord) : ℚ :=
  if sample = [] then 1 else (sample.length : ℚ)

def analyze_naming_patterns (file_paths : List FileRecord) : NamingPatterns :=
  let sample := file_paths.take 200
  let c := sample.foldl namingStep initNamingCounts
  let total : ℚ := namingDenom sample
  { date_in_name := ((c.date_in_name : ℚ) / total) * 100
    client_name_in_name := ((c.client_name_in_name : ℚ) / total) * 100
    case_number_in_name := ((c.case_number_in_name : ℚ) / total) * 100
    spaces_in_name := ((c.spaces_in_name : ℚ) / total) * 100
    special_chars_in_name := ((c.special_chars_in_name : ℚ) / total) * 100
    descriptive_names := ((c.descriptive_names : ℚ) / total) * 100
    generic_names := ((c.generic_names : ℚ) / total) * 100 }

/-! ## `_detect_organization_issues` (`fs_analyzer.py`, lines 333-396) -/

def detect_organization_issues (r : FsResults) : List Finding :=
  let root_files := ((lookupKey r.directories "root").map (fun d => d.file_count)).getD 0
  (if 50 < root_files then [⟨"high", "too_many_root_files"⟩] else []) ++
  (if 8 ≤ r.depth_analysis.max_depth then [⟨"medium", "folder_depth_too_deep"⟩] else []) ++
  (if 5 < r.depth_analysis.shallow_folders.length then
    [⟨"medium", "overcrowded_top_level"⟩] else []) ++
  (if 30 < r.naming_patterns.spaces_in_name then [⟨"low", "spaces_in_filenames"⟩]
   else []) ++
  (if r.duplicates ≠ [] then [⟨"medium", "duplicate_files"⟩] else []) ++
  (if r.naming_patterns.date_in_name < 10 then [⟨"low", "missing_dates_in_filenames"⟩]
   else [])

/-! ## `_generate_file_recommendations` (`fs_analyzer.py`, lines 398-456) -/

/-- The descending stable-sort relation of
`sorted(recommendations, key=lambda x: x['priority'], reverse=True)`:
the left priority *string* is lexicographically at least the right one. -/
def recStrGe (a b : Recommendation) : Prop := pyStrLt a.priority b.priority = false

instance : DecidableRel recStrGe := fun a b =>
  inferInstanceAs (Decidable (pyStrLt a.priority b.priority = false))

/-- Source: `sorted(recommendations, key=lambda x: x['priority'], reverse=True)`:
a stable sort that compares the priority *strings* lexicographically. -/
def sortByPriorityStr (l : List Recommendation) : List Recommendation :=
  List.insertionSort recStrGe l

def generate_file_recommendations (r : FsResults) : List Recommendation :=
  let recs :=
    (if r.duplicates ≠ [] then
      [⟨"high", "duplicate_cleanup", 1/2, "2-4 hours", "easy"⟩] else []) ++
    (if 6 ≤ r.depth_analysis.max_depth then
      [⟨"medium", "folder_structure", 1, "4-8 hours", "medium"⟩] else []) ++
    (if 30 < r.naming_patterns.spaces_in_name then
      [⟨"low", "naming_convention", 1/5, "1-2 hours", "easy"⟩] else []) ++
    (if (if 0 < r.total_files then
          (3 : ℚ)/10 < (lookupCount r.files_by_category "other" : ℚ) / (r.total_files : ℚ)
         else False) then
      [⟨"medium", "file_categorization", 2, "4-6 hours", "medium"⟩] else [])
  sortByPriorityStr recs

/-! ## `scan_filesystem` assembly (`fs_analyzer.py`, lines 148-181) -/

/-- Emit the duplicate groups from the fingerprint buckets
(`fs_analyzer.py`, lines 148-158): one group per bucket with at least two
paths; wasted bytes re-stat every path except the first; only the first
five paths are stored. -/
def mkDuplicates (buckets : List (Nat × List (String × Nat))) : List DupGroup :=
  buckets.filterMap fun b =>
    if 1 < b.2.length then
      some ⟨b.1, b.2.length, ((b.2.drop 1).map (fun m => m.2)).sum,
            (b.2.map (fun m => m.1)).take 5⟩
    else none

/-- The pure pipeline of `scan_filesystem` on the walked directory list.
Every denominator in the pipeline is syntactically guarded in the source
(`len(sample_files) if sample_files else 1`, `if dir_structure:`, the
conditional expression around the uncategorized fraction), so no step can
raise and the report always seals with `scan_complete = True`. -/
def scan_filesystem (scanPath : String) (walk : List WalkDir) (maxFiles : Nat) :
    FsResults :=
  let st := walkFold scanPath maxFiles walk
  let base : FsResults :=
    { scan_path := scanPath, total_files := st.file_count, total_dirs := 0
      total_size_bytes := st.total_size_bytes, files_by_type := st.files_by_type
      files_by_category := st.files_by_category, size_by_category := st.size_by_category
      directories := st.directories, duplicates := mkDuplicates st.file_hashes
      organization_issues := [], file_paths := st.file_paths
      depth_analysis := analyze_depth st.dir_structure
      naming_patterns := analyze_naming_patterns st.file_paths
      recommendations := [], scan_complete := false }
  let base := { base with organization_issues := detect_organization_issues base }
  { base with recommendations := generate_file_recommendations base
              scan_complete := true }

/-! ## Google Drive scanner (`cloud_scanner.py`) -/

/-- Source: `results['quota_info']` as built by `scan_google_drive`, lines 68-74. -/
structure QuotaInfo where
  limit_bytes : Nat
  usage_bytes : Nat
  usage_in_drive_bytes : Nat
  usage_percent : ℚ
  deriving DecidableEq, Repr

/-- The `storageQuota` mapping returned by the Drive API; `none` models an
absent key. -/
structure QuotaRaw where
  limit : Option Nat
  usage : Option Nat
  usageInDrive : Option Nat
  deriving DecidableEq, Repr

/-- Source: `scan_google_drive`, lines 68-74:
`usage_percent = (int(quota.get('usage', 0)) / int(quota.get('limit', 1))) * 100`.
When the mapping carries an explicit limit of `0` the division raises
`ZeroDivisionError` (caught only by the scanner's outer handler, which
seals the report with `scan_complete = False`). -/
def mkQuotaInfo (q : QuotaRaw) : Except String QuotaInfo :=
  let denom := q.limit.getD 1
  if denom = 0 then .error "ZeroDivisionError"
  else
    .ok ⟨q.limit.getD 0, q.usage.getD 0, q.usageInDrive.getD 0,
         ((q.usage.getD 0 : ℚ) / (denom : ℚ)) * 100⟩

/-- The fields of the `scan_google_drive` results dict consumed by
`_detect_drive_issues` and `_generate_drive_recommendations`.
`quota_info = none` models the initial empty dict; `shared_files` keeps
only the file names (just its length is consumed). -/
structure DriveResults where
  total_files : Nat
  total_folders : Nat
  files_by_category : CountMap
  shared_files : List String
  quota_info : Option QuotaInfo
  deriving DecidableEq, Repr

/-- Source: `_detect_drive_issues` (`cloud_scanner.py`, lines 217-252).  The
uncategorized-files rule divides by `max(total_files, 1)` in its guard, but
its description f-string divides by the raw `total_files`, which raises
`ZeroDivisionError` when the guard passes with `total_files = 0`; that
division is kept as an explicit effect. -/
def detect_drive_issues (r : DriveResults) : Except String (List Finding) :=
  let usage_percent := ((r.quota_info.map (fun q => q.usage_percent)).getD 0)
  let issues0 : List Finding :=
    if 80 < usage_percent then [⟨"high", "high_storage_usage"⟩] else []
  let uncat := lookupCount r.files_by_category "other"
  let step : Except String (List Finding) :=
    if (1 : ℚ)/5 < (uncat : ℚ) / (max r.total_files 1 : ℚ) then
      if r.total_files = 0 then .error "ZeroDivisionError"
      else .ok (issues0 ++ [⟨"medium", "many_uncategorized_files"⟩])
    else .ok issues0
  step.map fun issues1 =>
    if 50 < r.shared_files.length then issues1 ++ [⟨"medium", "excessive_shared_files"⟩]
    else issues1

/-- Source: `_generate_drive_recommendations` (`cloud_scanner.py`, lines 254-308).
The source's shared-files item has a quoting slip
(`'implementation_time": "1-2 hours'`); it is embedded as the intended
key/value pair. -/
def generate_drive_recommendations (r : DriveResults) : List Recommendation :=
  let usage_percent := ((r.quota_info.map (fun q => q.usage_percent)).getD 0)
  let recs :=
    (if 70 < usage_percent then
      [⟨"high", "storage_optimization", 1/2, "2-4 hours", "easy"⟩] else []) ++
    (if 50 < r.total_folders then
      [⟨"medium", "folder_organization", 1/2, "2-4 hours", "medium"⟩] else []) ++
    (if 20 < r.shared_files.length then
      [⟨"low", "security", 0, "1-2 hours", "easy"⟩] else []) ++
    (if 0 < lookupCount r.files_by_category "other" then
      [⟨"low", "naming_convention", 1, "1-2 hours", "easy"⟩] else [])
  sortByPriorityStr recs

/-! ## `_generate_email_recommendations` (`src/email_scanner.py`,
lines 432-476) -/

/-- Inputs consumed by the email recommendation generator: the confidence
labels of the template candidates, the average response time in hours, and
the folder count. -/
def generate_email_recommendations (templateConfidences : List String)
    (responseTime : ℚ) (folderCount : Nat) : List Recommendation :=
  let high_confidence := templateConfidences.filter (fun c => c = "high")
  let recs :=
    (if templateConfidences ≠ [] ∧ high_confidence ≠ [] then
      [⟨"high", "email_templates", (high_confidence.length : ℚ) * (1/2),
        "2-3 hours", "easy"⟩] else []) ++
    (if 24 < responseTime then
      [⟨"medium", "response_time", 1, "1-2 hours", "easy"⟩] else []) ++
    (if 20 < folderCount then
      [⟨"medium", "organization", 1/2, "1 hour", "easy"⟩] else [])
  sortByPriorityStr recs

/-! ## The coordinator (`src/system_coordinator.py`) -/

/-- A per-module result as consumed by the coordinator: it only reads
`provider` (absent for the filesystem module), `scan_complete`,
`organization_issues` (absent for the email module: `.get` default `[]`)
and `recommendations`. -/
structure ModuleResult where
  provider : Option String
  scan_complete : Bool
  organization_issues : List Finding
  recommendations : List Recommendation
  deriving DecidableEq, Repr

/-- One consolidated issue (`_consolidate_findings`, lines 164-172; the
`description` and `impact` display strings are not carried). -/
structure CombinedIssue where
  module : String
  severity : String
  issue : String
  deriving DecidableEq, Repr

/-- The dict built by `_consolidate_findings`, embedded as a string-keyed
association map so that lookups of absent keys stay observable. -/
abbrev ConsolidatedMap := List (String × List CombinedIssue)

def emptyConsolidated : ConsolidatedMap :=
  [("critical_issues", []), ("high_priority_issues", []),
   ("medium_priority_issues", []), ("low_priority_issues", []),
   ("opportunities", []), ("security_concerns", [])]

/-- The `if severity == ... : append` ladder, lines 174-181. -/
def severityBucket (sev : String) : String :=
  if sev = "critical" then "critical_issues"
  else if sev = "high" then "high_priority_issues"
  else if sev = "medium" then "medium_priority_issues"
  else "low_priority_issues"

/-- Source: `consolidated[k].append(v)`.  The four bucket keys always exist; on a
missing key the map is returned unchanged (that branch is unreachable from
`severityBucket`). -/
def bucketAppend (k : String) (v : CombinedIssue) : ConsolidatedMap → ConsolidatedMap
  | [] => []
  | (k', vs) :: rest =>
    if k' = k then (k', vs ++ [v]) :: rest else (k', vs) :: bucketAppend k v rest

/-- Lines 164-172: the combined issue for one module issue. -/
def combinedOf (m : ModuleResult) (i : Finding) : CombinedIssue :=
  ⟨m.provider.getD "unknown", i.severity, i.issue⟩

/-- Source: `_consolidate_findings` (lines 142-183): issues of every present,
completely-scanned module are routed into the per-severity buckets. -/
def consolidate_findings (modules : List (Option ModuleResult)) : ConsolidatedMap :=
  modules.foldl
    (fun acc mo =>
      match mo with
      | some m =>
        if m.scan_complete then
          m.organization_issues.foldl
            (fun acc i => bucketAppend (severityBucket i.severity) (combinedOf m i) acc)
            acc
        else acc
      | none => acc)
    emptyConsolidated

/-- Source: `lookupKey` specialised to the consolidated map (`.get(k, [])`). -/
def consolidatedGet (c : ConsolidatedMap) (k : String) : List CombinedIssue :=
  (lookupKey c k).getD []

/-- A merged recommendation after `rec['source'] = ...` tagging
(`_create_prioritized_recommendations`, lines 327-332). -/
structure CoordRec where
  priority : String
  area : String
  savings : ℚ
  implementation_time : String
  difficulty : String
  source : String
  deriving DecidableEq, Repr

def tagSource (m : ModuleResult) (r : Recommendation) : CoordRec :=
  ⟨r.priority, r.area, r.savings, r.implementation_time, r.difficulty,
   m.provider.getD "unknown"⟩

/-- Source: `priority_order = {'high': 3, 'medium': 2, 'low': 1}` with
`.get(priority, 0)`. -/
def priorityOrderVal (p : String) : Nat :=
  if p = "high" then 3 else if p = "medium" then 2 else if p = "low" then 1 else 0

/-- The sort key of line 337: `(priority_order.get(...), savings)`. -/
def coordKey (r : CoordRec) : Nat × ℚ := (priorityOrderVal r.priority, r.savings)

/-- Lexicographic `≤` on the sort keys (Python tuple comparison). -/
def keyLe (x y : Nat × ℚ) : Prop := x.1 < y.1 ∨ (x.1 = y.1 ∧ x.2 ≤ y.2)

instance : DecidableRel keyLe := fun x y =>
  inferInstanceAs (Decidable (x.1 < y.1 ∨ (x.1 = y.1 ∧ x.2 ≤ y.2)))

/-- The descending stable-sort relation of
`all_recs.sort(key=..., reverse=True)`. -/
def coordGe (a b : CoordRec) : Prop := keyLe (coordKey b) (coordKey a)

instance : DecidableRel coordGe := fun a b =>
  inferInstanceAs (Decidable (keyLe (coordKey b) (coordKey a)))

/-- The `all_recs` concatenation of `_create_prioritized_recommendations`
(lines 318-332), before the sort. -/
def mergedRecommendations (modules : List (Option ModuleResult)) : List CoordRec :=
  modules.foldl
    (fun acc mo =>
      match mo with
      | some m =>
        if m.scan_complete then acc ++ m.recommendations.map (tagSource m) else acc
      | none => acc)
    []

/-- Source: `_create_prioritized_recommendations` (lines 316-342). -/
def create_prioritized_recommendations (modules : List (Option ModuleResult)) :
    List CoordRec :=
  List.insertionSort coordGe (mergedRecommendations modules)

/-- Source: `scan_summary` fields of `run_full_analysis`. -/
structure ScanSummary where
  total_findings : Nat
  total_recommendations : Nat
  total_time_savings_estimate : ℚ
  deriving DecidableEq, Repr

/-- The analysis result of `run_full_analysis` (the `lawyer_info` and
`ai_insights` slots carry I/O data and are not modelled). -/
structure AnalysisResults where
  email_analysis : Option ModuleResult
  filesystem_analysis : Option ModuleResult
  cloud_analysis : Option ModuleResult
  consolidated_findings : ConsolidatedMap
  prioritized_recommendations : List CoordRec
  scan_summary : ScanSummary
  deriving DecidableEq, Repr

/-- Python's `sum(...)` over the per-item savings: a left fold from 0. -/
def pySum (l : List ℚ) : ℚ := l.foldl (fun a b => a + b) 0

/-- The consolidation/summary tail of `run_full_analysis` (lines 119-140),
given the three per-module results (each `none` when its scan was skipped
or its authentication failed).  Note line 123 reads the key `'issues'`,
which `_consolidate_findings` never writes. -/
def run_full_analysis (email fs cloud : Option ModuleResult) : AnalysisResults :=
  let modules := [email, fs, cloud]
  let consolidated := consolidate_findings modules
  let recs := create_prioritized_recommendations modules
  { email_analysis := email, filesystem_analysis := fs, cloud_analysis := cloud
    consolidated_findings := consolidated
    prioritized_recommendations := recs
    scan_summary :=
      { total_findings := (consolidatedGet consolidated "issues").length
        total_recommendations := recs.length
        total_time_savings_estimate := pySum (recs.map (fun r => r.savings)) } }

/-- The top-level keys `run_full_analysis` writes into its results dict
(lines 59-77 and the later assignments). -/
def analysisResultKeys : List String :=
  ["lawyer_info", "scan_summary", "email_analysis", "filesystem_analysis",
   "cloud_analysis", "consolidated_findings", "ai_insights",
   "prioritized_recommendations"]

/-! ## `_calculate_time_savings` (`src/analyzer.py`, lines 134-192) -/

/-- Source: `TimeSavingRecommendation` dataclass. -/
structure TimeSavingRecommendation where
  area : String
  current_time_weekly : ℚ
  optimized_time_weekly : ℚ
  time_savings : ℚ
  implementation_time : String
  estimated_cost : String
  priority : String
  description : String
  specific_actions : List String
  deriving DecidableEq, Repr

/-- Source: `diagnostic_questionnaire.categories` (`diagnostic_questions.py`,
lines 35-42). -/
def questionnaireCategories : List (String × String) :=
  [("intake", "Client Intake & Management"),
   ("documents", "Document Drafting & Templates"),
   ("case_management", "Case & Deadline Management"),
   ("billing", "Billing & Time Tracking"),
   ("admin", "Administrative Tasks"),
   ("pain_points", "Pain Points & Bottlenecks")]

/-- Source: `time_allocations` (lines 139-145): category, weekly hours,
description fragment. -/
def timeAllocations : List (String × Nat × String) :=
  [("intake", 8, "hours spent on intake"),
   ("documents", 12, "hours on document drafting"),
   ("case_management", 6, "hours on case/deadline tracking"),
   ("billing", 4, "hours on billing/time tracking"),
   ("admin", 10, "hours on administrative tasks")]

/-- Source: `_get_specific_actions` (lines 194-224). -/
def getSpecificActions (category : String) : List String :=
  if category = "intake" then
    ["Implement online intake forms", "Create automated conflict checking",
     "Set up client portal for document sharing"]
  else if category = "documents" then
    ["Create document templates for common pleadings",
     "Implement document automation software",
     "Build clause library for frequently used language"]
  else if category = "case_management" then
    ["Implement practice management software",
     "Set up automatic deadline calculations",
     "Create task templates for case phases"]
  else if category = "billing" then
    ["Use time tracking software", "Automate invoice generation",
     "Implement online payment processing"]
  else if category = "admin" then
    ["Delegate routine tasks to support staff", "Use email templates",
     "Implement scheduling software"]
  else
    ["Evaluate current processes", "Research automation options",
     "Implement improvements"]

/-- The step function of lines 151-162: waste factor and optimization
factor from the category's health percentage. -/
def wasteOptFactors (p : ℚ) : ℚ × ℚ :=
  if p < 40 then (7/10, 6/10)
  else if p < 70 then (4/10, 5/10)
  else (15/100, 4/10)

/-- Lines 169-177: implementation difficulty and cost bucket. -/
def difficultyCost (p : ℚ) : String × String :=
  if p < 30 then ("Hard", "$500-2000")
  else if p < 50 then ("Medium", "$200-500")
  else ("Easy", "$0-200")

/-- Source: `m.get(k, 0)` over the `category_percentages` mapping. -/
def lookupPct (m : List (String × ℚ)) (k : String) : ℚ :=
  ((m.find? (fun p => p.1 = k)).map (fun p => p.2)).getD 0

/-- The loop body of `_calculate_time_savings` for one allocation entry:
`some` recommendation when the potential savings clear the 0.5 h/week
floor, else `none`.  `self.questionnaire.categories[category]` is a plain
index; all five allocation keys are present in that dict. -/
def savingEntryFor (pcts : List (String × ℚ)) (category : String) (weekly : Nat)
    (descr : String) : Option TimeSavingRecommendation :=
  let percentage := lookupPct pcts category
  let f := wasteOptFactors percentage
  let current_waste := (weekly : ℚ) * f.1
  let potential_savings := current_waste * f.2
  if 1/2 < potential_savings then
    let dc := difficultyCost percentage
    some
      { area := (lookupKey questionnaireCategories category).getD ""
        current_time_weekly := (weekly : ℚ)
        optimized_time_weekly := (weekly : ℚ) - potential_savings
        time_savings := potential_savings
        implementation_time := dc.1
        estimated_cost := dc.2
        priority := if 2 < potential_savings then "High" else "Medium"
        description := "Optimize " ++ descr ++ " through automation and better systems"
        specific_actions := getSpecificActions category }
  else none

/-- Source: `sorted(time_savings, key=lambda x: x.time_savings, reverse=True)`. -/
def sortBySavings (l : List TimeSavingRecommendation) : List TimeSavingRecommendation :=
  List.insertionSort (fun a b => b.time_savings ≤ a.time_savings) l

/-- Source: `_calculate_time_savings` (lines 134-192). -/
def calculate_time_savings (pcts : List (String × ℚ)) :
    List TimeSavingRecommendation :=
  sortBySavings
    (timeAllocations.filterMap (fun t => savingEntryFor pcts t.1 t.2.1 t.2.2))

/-! ## Order properties of the sort relations -/

theorem pyStrLtL_irrefl : ∀ a, pyStrLtL a a = false := by
  intro a
  induction a with
  | nil => rfl
  | cons x xs ih => simp [pyStrLtL, ih]

theorem pyStrLtL_asymm : ∀ a b, pyStrLtL a b = true → pyStrLtL b a = false := by
  intro a
  induction a with
  | nil =>
    intro b hb
    cases b with
    | nil => simp [pyStrLtL] at hb
    | cons y ys => simp [pyStrLtL]
  | cons x xs ih =>
    intro b hb
    cases b with
    | nil => simp [pyStrLtL] at hb
    | cons y ys =>
      simp only [pyStrLtL] at hb ⊢
      split_ifs at hb ⊢ with h1 h2 h3 <;>
        first
        | rfl
        | omega
        | exact ih ys hb

theorem pyStrLtL_false_trans :
    ∀ a b c, pyStrLtL a b = false → pyStrLtL b c = false → pyStrLtL a c = false := by
  intro a
  induction a with
  | nil =>
    intro b c hab hbc
    cases b with
    | nil =>
      cases c with
      | nil => rfl
      | cons z zs => simp [pyStrLtL] at hbc
    | cons y ys => simp [pyStrLtL] at hab
  | cons x xs ih =>
    intro b c hab hbc
    cases b with
    | nil =>
      cases c with
      | nil => simp [pyStrLtL]
      | cons z zs => simp [pyStrLtL] at hbc
    | cons y ys =>
      cases c with
      | nil => simp [pyStrLtL]
      | cons z zs =>
        simp only [pyStrLtL] at hab hbc ⊢
        split_ifs at hab hbc ⊢ with h1 h2 h3 h4 h5 h6 <;>
          first
          | rfl
          | omega
          | exact ih ys zs hab hbc

theorem pyStrLt_total (a b : String) : pyStrLt a b = false ∨ pyStrLt b a = false := by
  rcases h : pyStrLt a b with _ | _
  · exact Or.inl rfl
  · exact Or.inr (pyStrLtL_asymm a.data b.data h)

instance : IsTotal Recommendation recStrGe :=
  ⟨fun a b => pyStrLt_total a.priority b.priority⟩

instance : IsTrans Recommendation recStrGe :=
  ⟨fun a b c hab hbc =>
    pyStrLtL_false_trans a.priority.data b.priority.data c.priority.data hab hbc⟩

theorem keyLe_total (x y : Nat × ℚ) : keyLe x y ∨ keyLe y x := by
  rcases lt_trichotomy x.1 y.1 with h | h | h
  · exact Or.inl (Or.inl h)
  · rcases le_total x.2 y.2 with h2 | h2
    · exact Or.inl (Or.inr ⟨h, h2⟩)
    · exact Or.inr (Or.inr ⟨h.symm, h2⟩)
  · exact Or.inr (Or.inl h)

theorem keyLe_trans {x y z : Nat × ℚ} (h1 : keyLe x y) (h2 : keyLe y z) : keyLe x z := by
  rcases h1 with h1 | ⟨h1, h1'⟩ <;> rcases h2 with h2 | ⟨h2, h2'⟩
  · exact Or.inl (h1.trans h2)
  · exact Or.inl (h2 ▸ h1)
  · exact Or.inl (h1 ▸ h2)
  · exact Or.inr ⟨h1.trans h2, h1'.trans h2'⟩

instance : IsTotal CoordRec coordGe :=
  ⟨fun a b => (keyLe_total (coordKey a) (coordKey b)).symm⟩

instance : IsTrans CoordRec coordGe :=
  ⟨fun _ _ _ hab hbc => keyLe_trans hbc hab⟩

theorem sorted_sortByPriorityStr (l : List Recommendation) :
    List.Sorted recStrGe (sortByPriorityStr l) :=
  List.sorted_insertionSort recStrGe l

theorem perm_sortByPriorityStr (l : List Recommendation) :
    (sortByPriorityStr l).Perm l :=
  List.perm_insertionSort recStrGe l

/-! ## Lemmas on the consolidated-findings map -/

theorem lookupKey_bucketAppend (m : ConsolidatedMap) (k : String) (v : CombinedIssue)
    (q : String) :
    lookupKey (bucketAppend k v m) q =
      if q = k then (lookupKey m q).map (fun vs => vs ++ [v]) else lookupKey m q := by
  induction m with
  | nil => by_cases h : q = k <;> simp [bucketAppend, lookupKey, h]
  | cons p rest ih =>
    obtain ⟨k', vs⟩ := p
    by_cases h1 : k' = k
    · subst h1
      by_cases h2 : q = k'
      · simp [bucketAppend, lookupKey, List.find?, h2]
      · simp [bucketAppend, lookupKey, List.find?, h2, Ne.symm h2]
    · by_cases h2 : k' = q
      · subst h2
        simp [bucketAppend, lookupKey, List.find?, h1, Ne.symm h1]
      · simp only [bucketAppend, if_neg h1]
        by_cases h3 : q = k <;>
          simp_all [lookupKey, List.find?, Ne.symm h2]

/-- The issue-routing inner fold of `_consolidate_findings` for one
module. -/
def moduleFold (m : ModuleResult) (acc : ConsolidatedMap) : ConsolidatedMap :=
  m.organization_issues.foldl
    (fun acc i => bucketAppend (severityBucket i.severity) (combinedOf m i) acc) acc

theorem consolidate_findings_eq (modules : List (Option ModuleResult)) :
    consolidate_findings modules =
      modules.foldl
        (fun acc mo =>
          match mo with
          | some m => if m.scan_complete then moduleFold m acc else acc
          | none => acc)
        emptyConsolidated := rfl

/-- A fold of `bucketAppend`s never creates keys: a key absent from the
accumulator stays absent. -/
theorem lookupKey_moduleFold_none (m : ModuleResult) (q : String) :
    ∀ acc : ConsolidatedMap, lookupKey acc q = none →
      lookupKey (moduleFold m acc) q = none := by
  unfold moduleFold
  generalize m.organization_issues = issues
  induction issues with
  | nil => intro acc h; simpa using h
  | cons i rest ih =>
    intro acc h
    simp only [List.foldl_cons]
    apply ih
    rw [lookupKey_bucketAppend]
    split_ifs with hq
    · simp [h]
    · exact h

theorem lookupKey_consolidate_none (modules : List (Option ModuleResult)) (q : String)
    (h0 : lookupKey emptyConsolidated q = none) :
    lookupKey (consolidate_findings modules) q = none := by
  rw [consolidate_findings_eq]
  suffices h : ∀ acc : ConsolidatedMap, lookupKey acc q = none →
      lookupKey (modules.foldl
        (fun acc mo =>
          match mo with
          | some m => if m.scan_complete then moduleFold m acc else acc
          | none => acc) acc) q = none by
    exact h emptyConsolidated h0
  induction modules with
  | nil => intro acc h; simpa using h
  | cons mo rest ih =>
    intro acc h
    simp only [List.foldl_cons]
    apply ih
    cases mo with
    | none => exact h
    | some m =>
      by_cases hm : m.scan_complete <;> simp [hm, lookupKey_moduleFold_none m q acc h, h]

/-- Membership in a bucket is preserved by further appends, and the
appended issue lands in its bucket provided the key exists. -/
theorem mem_consolidatedGet_bucketAppend (m : ConsolidatedMap) (k : String)
    (v : CombinedIssue) (q : String) (x : CombinedIssue)
    (hx : x ∈ consolidatedGet m q) :
    x ∈ consolidatedGet (bucketAppend k v m) q := by
  unfold consolidatedGet at hx ⊢
  rw [lookupKey_bucketAppend]
  split_ifs with hq
  · cases h : lookupKey m q with
    | none => simp [h] at hx
    | some vs => simp [h] at hx ⊢; exact Or.inl hx
  · exact hx

theorem self_mem_consolidatedGet_bucketAppend (m : ConsolidatedMap) (k : String)
    (v : CombinedIssue) (hk : (lookupKey m k).isSome) :
    v ∈ consolidatedGet (bucketAppend k v m) k := by
  unfold consolidatedGet
  rw [lookupKey_bucketAppend, if_pos rfl]
  cases h : lookupKey m k with
  | none => rw [h] at hk; simp at hk
  | some vs => simp [h]

/-- Source: `bucketAppend` preserves key presence. -/
theorem isSome_lookupKey_bucketAppend (m : ConsolidatedMap) (k : String)
    (v : CombinedIssue) (q : String) (hq : (lookupKey m q).isSome) :
    (lookupKey (bucketAppend k v m) q).isSome := by
  rw [lookupKey_bucketAppend]
  split_ifs with h
  · simpa using hq
  · exact hq

/-- The keys of the initial consolidated dict stay present. -/
def keysOk (c : ConsolidatedMap) : Prop :=
  ∀ q, (lookupKey emptyConsolidated q).isSome → (lookupKey c q).isSome

theorem keysOk_empty : keysOk emptyConsolidated := fun _ h => h

theorem keysOk_bucketAppend {c : ConsolidatedMap} (k : String) (v : CombinedIssue)
    (h : keysOk c) : keysOk (bucketAppend k v c) :=
  fun q hq => isSome_lookupKey_bucketAppend c k v q (h q hq)

theorem severityBucket_present (sev : String) :
    (lookupKey emptyConsolidated (severityBucket sev)).isSome := by
  unfold severityBucket
  split_ifs <;> decide

theorem mem_consolidatedGet_bucketAppend_elim (m : ConsolidatedMap) (k : String)
    (v : CombinedIssue) (q : String) (x : CombinedIssue)
    (hx : x ∈ consolidatedGet (bucketAppend k v m) q) :
    x ∈ consolidatedGet m q ∨ x = v := by
  unfold consolidatedGet at hx
  rw [lookupKey_bucketAppend] at hx
  split_ifs at hx with hq
  · cases h : lookupKey m q with
    | none => rw [h] at hx; simp at hx
    | some vs =>
      rw [h] at hx
      simp at hx
      unfold consolidatedGet
      rw [h]
      simpa using hx
  · exact Or.inl hx

/-- The issue fold over one module, abstracted over the issue list. -/
def issuesFold (m : ModuleResult) (issues : List Finding) (acc : ConsolidatedMap) :
    ConsolidatedMap :=
  issues.foldl
    (fun acc i => bucketAppend (severityBucket i.severity) (combinedOf m i) acc) acc

theorem moduleFold_eq_issuesFold (m : ModuleResult) (acc : ConsolidatedMap) :
    moduleFold m acc = issuesFold m m.organization_issues acc := rfl

theorem keysOk_issuesFold (m : ModuleResult) (issues : List Finding) :
    ∀ acc, keysOk acc → keysOk (issuesFold m issues acc) := by
  induction issues with
  | nil => intro acc h; exact h
  | cons i rest ih =>
    intro acc h
    exact ih _ (keysOk_bucketAppend _ _ h)

theorem mem_issuesFold_mono (m : ModuleResult) (issues : List Finding) (q : String)
    (x : CombinedIssue) :
    ∀ acc, x ∈ consolidatedGet acc q → x ∈ consolidatedGet (issuesFold m issues acc) q := by
  induction issues with
  | nil => intro acc h; exact h
  | cons i rest ih =>
    intro acc h
    exact ih _ (mem_consolidatedGet_bucketAppend _ _ _ _ _ h)

theorem mem_issuesFold_self (m : ModuleResult) (issues : List Finding) (i : Finding) :
    ∀ acc, keysOk acc → i ∈ issues →
      combinedOf m i ∈ consolidatedGet (issuesFold m issues acc) (severityBucket i.severity) := by
  induction issues with
  | nil => intro acc _ h; simp at h
  | cons j rest ih =>
    intro acc hk hmem
    rcases List.mem_cons.mp hmem with h | h
    · subst h
      exact mem_issuesFold_mono m rest _ _ _
        (self_mem_consolidatedGet_bucketAppend acc _ _
          (hk _ (severityBucket_present i.severity)))
    · exact ih _ (keysOk_bucketAppend _ _ hk) h

theorem mem_issuesFold_src (m : ModuleResult) (issues : List Finding) (q : String)
    (x : CombinedIssue) :
    ∀ acc, x ∈ consolidatedGet (issuesFold m issues acc) q →
      x ∈ consolidatedGet acc q ∨ ∃ i ∈ issues, x = combinedOf m i := by
  induction issues with
  | nil => intro acc h; exact Or.inl h
  | cons j rest ih =>
    intro acc h
    rcases ih _ h with h' | ⟨i, hi, hx⟩
    · rcases mem_consolidatedGet_bucketAppend_elim _ _ _ _ _ h' with h'' | h''
      · exact Or.inl h''
      · exact Or.inr ⟨j, List.mem_cons_self j rest, h''⟩
    · exact Or.inr ⟨i, List.mem_cons_of_mem j hi, hx⟩

/-- The outer module fold of `_consolidate_findings`, abstracted over the
accumulator. -/
def modulesFold (modules : List (Option ModuleResult)) (acc : ConsolidatedMap) :
    ConsolidatedMap :=
  modules.foldl
    (fun acc mo =>
      match mo with
      | some m => if m.scan_complete then moduleFold m acc else acc
      | none => acc)
    acc

theorem consolidate_findings_eq_modulesFold (modules : List (Option ModuleResult)) :
    consolidate_findings modules = modulesFold modules emptyConsolidated := rfl

theorem keysOk_modulesFold (modules : List (Option ModuleResult)) :
    ∀ acc, keysOk acc → keysOk (modulesFold modules acc) := by
  induction modules with
  | nil => intro acc h; exact h
  | cons mo rest ih =>
    intro acc h
    cases mo with
    | none => exact ih acc h
    | some m =>
      by_cases hm : m.scan_complete
      · simpa [modulesFold, hm] using
          ih _ (by rw [moduleFold_eq_issuesFold]; exact keysOk_issuesFold m _ acc h)
      · simpa [modulesFold, hm] using ih acc h

theorem mem_modulesFold_mono (modules : List (Option ModuleResult)) (q : String)
    (x : CombinedIssue) :
    ∀ acc, x ∈ consolidatedGet acc q →
      x ∈ consolidatedGet (modulesFold modules acc) q := by
  induction modules with
  | nil => intro acc h; exact h
  | cons mo rest ih =>
    intro acc h
    cases mo with
    | none => exact ih acc h
    | some m =>
      by_cases hm : m.scan_complete
      · simpa [modulesFold, hm] using
          ih _ (by rw [moduleFold_eq_issuesFold]; exact mem_issuesFold_mono m _ q x acc h)
      · simpa [modulesFold, hm] using ih acc h

theorem mem_modulesFold_self (modules : List (Option ModuleResult)) (m : ModuleResult)
    (hm : some m ∈ modules) (hc : m.scan_complete = true) (i : Finding)
    (hi : i ∈ m.organization_issues) :
    ∀ acc, keysOk acc →
      combinedOf m i ∈
        consolidatedGet (modulesFold modules acc) (severityBucket i.severity) := by
  induction modules with
  | nil => simp at hm
  | cons mo rest ih =>
    intro acc hk
    rcases List.mem_cons.mp hm with h | h
    · subst h
      simp only [modulesFold, List.foldl_cons, hc, if_true]
      exact mem_modulesFold_mono rest _ _ _
        (by rw [moduleFold_eq_issuesFold]; exact mem_issuesFold_self m _ i acc hk hi)
    · cases mo with
      | none => exact ih h acc hk
      | some m' =>
        by_cases hm' : m'.scan_complete
        · simpa [modulesFold, hm'] using
            ih h _ (by rw [moduleFold_eq_issuesFold]; exact keysOk_issuesFold m' _ acc hk)
        · simpa [modulesFold, hm'] using ih h acc hk

theorem mem_modulesFold_src (modules : List (Option ModuleResult)) (q : String)
    (x : CombinedIssue) :
    ∀ acc, x ∈ consolidatedGet (modulesFold modules acc) q →
      x ∈ consolidatedGet acc q ∨
        ∃ m, some m ∈ modules ∧ m.scan_complete = true ∧
          ∃ i ∈ m.organization_issues, x = combinedOf m i := by
  induction modules with
  | nil => intro acc h; exact Or.inl h
  | cons mo rest ih =>
    intro acc h
    simp only [modulesFold, List.foldl_cons] at h
    cases mo with
    | none =>
      rcases ih acc h with h' | ⟨m, hm, hc, hi⟩
      · exact Or.inl h'
      · exact Or.inr ⟨m, List.mem_cons_of_mem _ hm, hc, hi⟩
    | some m' =>
      have h : x ∈ consolidatedGet
          (modulesFold rest
            (if m'.scan_complete = true then moduleFold m' acc else acc)) q := h
      by_cases hm' : m'.scan_complete
      · rw [if_pos hm'] at h
        rcases ih _ h with h' | ⟨m, hm, hc, hi⟩
        · rw [moduleFold_eq_issuesFold] at h'
          rcases mem_issuesFold_src m' _ q x acc h' with h'' | ⟨i, hi, hx⟩
          · exact Or.inl h''
          · exact Or.inr ⟨m', List.mem_cons_self _ _, hm', i, hi, hx⟩
        · exact Or.inr ⟨m, List.mem_cons_of_mem _ hm, hc, hi⟩
      · rw [if_neg hm'] at h
        rcases ih acc h with h' | ⟨m, hm, hc, hi⟩
        · exact Or.inl h'
        · exact Or.inr ⟨m, List.mem_cons_of_mem _ hm, hc, hi⟩

/-- Source: `consolidatedGet` of the empty dict is empty for every key. -/
theorem consolidatedGet_empty (q : String) : consolidatedGet emptyConsolidated q = [] := by
  unfold consolidatedGet lookupKey emptyConsolidated
  simp only [List.find?]
  repeat' split <;> simp_all

/-! ## Lemmas on the merged recommendation list -/

/-- The contribution of one module slot to `all_recs`. -/
def moduleRecs : Option ModuleResult → List CoordRec
  | some m => if m.scan_complete then m.recommendations.map (tagSource m) else []
  | none => []

theorem mergedRecommendations_eq (modules : List (Option ModuleResult)) :
    mergedRecommendations modules = (modules.map moduleRecs).flatten := by
  unfold mergedRecommendations
  suffices h : ∀ acc : List CoordRec,
      modules.foldl
        (fun acc mo =>
          match mo with
          | some m =>
            if m.scan_complete then acc ++ m.recommendations.map (tagSource m) else acc
          | none => acc) acc = acc ++ (modules.map moduleRecs).flatten by
    simpa using h []
  induction modules with
  | nil => intro acc; simp
  | cons mo rest ih =>
    intro acc
    cases mo with
    | none => simp [moduleRecs, ih]
    | some m =>
      by_cases hm : m.scan_complete <;> simp [moduleRecs, hm, ih, List.append_assoc]

theorem mem_mergedRecommendations (modules : List (Option ModuleResult))
    (m : ModuleResult) (hm : some m ∈ modules) (hc : m.scan_complete = true)
    (r : Recommendation) (hr : r ∈ m.recommendations) :
    tagSource m r ∈ mergedRecommendations modules := by
  rw [mergedRecommendations_eq]
  rw [List.mem_flatten]
  exact ⟨moduleRecs (some m), List.mem_map_of_mem moduleRecs hm, by
    simp [moduleRecs, hc]; exact ⟨r, hr, rfl⟩⟩

theorem mem_mergedRecommendations_src (modules : List (Option ModuleResult))
    (x : CoordRec) (hx : x ∈ mergedRecommendations modules) :
    ∃ m, some m ∈ modules ∧ m.scan_complete = true ∧
      ∃ r ∈ m.recommendations, x = tagSource m r := by
  rw [mergedRecommendations_eq, List.mem_flatten] at hx
  obtain ⟨l, hl, hxl⟩ := hx
  obtain ⟨mo, hmo, rfl⟩ := List.mem_map.mp hl
  cases mo with
  | none => simp [moduleRecs] at hxl
  | some m =>
    by_cases hm : m.scan_complete
    · simp only [moduleRecs, if_pos hm, List.mem_map] at hxl
      obtain ⟨r, hr, rfl⟩ := hxl
      exact ⟨m, hmo, hm, r, hr, rfl⟩
    · simp [moduleRecs, hm] at hxl

theorem perm_create_prioritized (modules : List (Option ModuleResult)) :
    (create_prioritized_recommendations modules).Perm (mergedRecommendations modules) :=
  List.perm_insertionSort coordGe (mergedRecommendations modules)

theorem mem_create_prioritized_iff (modules : List (Option ModuleResult)) (x : CoordRec) :
    x ∈ create_prioritized_recommendations modules ↔
      x ∈ mergedRecommendations modules :=
  (perm_create_prioritized modules).mem_iff

/-! ## Claim C10 -/

/-- Claim C10: For every coordinator run the scan summary's `total_findings`
counter is 0 regardless of how many issues consolidation collected: it is
computed from the key `'issues'`, which `_consolidate_findings` never
writes — the consolidated findings live only under the per-severity bucket
keys. -/
theorem C10_total_findings_always_zero (email fs cloud : Option ModuleResult) :
    (run_full_analysis email fs cloud).scan_summary.total_findings = 0 ∧
      lookupKey ((run_full_analysis email fs cloud).consolidated_findings) "issues" =
        none := by
  have hnone :
      lookupKey (consolidate_findings [email, fs, cloud]) "issues" = none :=
    lookupKey_consolidate_none [email, fs, cloud] "issues" (by decide)
  refine ⟨?_, hnone⟩
  show (consolidatedGet (consolidate_findings [email, fs, cloud]) "issues").length = 0
  rw [consolidatedGet, hnone]
  rfl

/-! ## Claim C2 -/

theorem pySum_eq_sum (l : List ℚ) : pySum l = l.sum := by
  unfold pySum
  suffices h : ∀ a : ℚ, l.foldl (fun a b => a + b) a = a + l.sum by
    simpa using h 0
  induction l with
  | nil => intro a; simp
  | cons x xs ih => intro a; simp [ih, List.sum_cons]; ring

/-- Claim C2: For every coordinator run, the aggregate weekly time-savings
estimate equals the sum, over the full merged and re-ranked recommendation
sequence (not a top-N slice), of the per-item savings — exactly, hence in
particular to tolerance `1e-6`.  The sum over the re-ranked sequence equals
the sum over the pre-sort concatenation of the modules' recommendations. -/
theorem C2_aggregate_time_savings (email fs cloud : Option ModuleResult) :
    (run_full_analysis email fs cloud).scan_summary.total_time_savings_estimate =
        (((run_full_analysis email fs cloud).prioritized_recommendations.map
          (fun r => r.savings)).sum) ∧
      (((run_full_analysis email fs cloud).prioritized_recommendations.map
          (fun r => r.savings)).sum =
        ((mergedRecommendations [email, fs, cloud]).map (fun r => r.savings)).sum) ∧
      |(run_full_analysis email fs cloud).scan_summary.total_time_savings_estimate -
          (((run_full_analysis email fs cloud).prioritized_recommendations.map
            (fun r => r.savings)).sum)| ≤ 1 / 1000000 := by
  have h1 :
      (run_full_analysis email fs cloud).scan_summary.total_time_savings_estimate =
        (((run_full_analysis email fs cloud).prioritized_recommendations.map
          (fun r => r.savings)).sum) := by
    show pySum _ = _
    exact pySum_eq_sum _
  refine ⟨h1, ?_, by rw [h1]; simp⟩
  exact List.Perm.sum_eq (List.Perm.map _ (perm_create_prioritized [email, fs, cloud]))

/-! ## Claim C3 -/

/-- The ordering the specification claims for every output list: priority
rank descending (high before medium before low), ties broken by weekly
time savings descending. -/
def recKey (r : Recommendation) : Nat × ℚ := (priorityOrderVal r.priority, r.savings)

/-- Source: `a` may precede `b` under the claimed order. -/
def recClaimGe (a b : Recommendation) : Prop := keyLe (recKey b) (recKey a)

/-- Claim C3 (amended): The coordinator's merged list is sorted by priority
rank descending with ties broken by time savings descending (`coordGe`),
as claimed.  The per-source synthesizer lists (filesystem, drive, email)
are instead each sorted by the raw priority *string*, lexicographically
descending (`recStrGe`): `'medium' > 'low' > 'high'`, with no
time-savings tiebreak. -/
theorem C3_sorting_amended (email fs cloud : Option ModuleResult) (rfs : FsResults)
    (rdr : DriveResults) (tc : List String) (rt : ℚ) (fc : Nat) :
    List.Sorted coordGe (run_full_analysis email fs cloud).prioritized_recommendations ∧
      List.Sorted recStrGe (generate_file_recommendations rfs) ∧
      List.Sorted recStrGe (generate_drive_recommendations rdr) ∧
      List.Sorted recStrGe (generate_email_recommendations tc rt fc) := by
  refine ⟨?_, ?_, ?_, ?_⟩
  · show List.Sorted coordGe (create_prioritized_recommendations [email, fs, cloud])
    exact List.sorted_insertionSort coordGe _
  · exact List.sorted_insertionSort recStrGe _
  · exact List.sorted_insertionSort recStrGe _
  · exact List.sorted_insertionSort recStrGe _

/-- A reachable filesystem results value: two identical 2000-byte PDFs
(one duplicate group) and a six-level-deep directory. -/
def c3Input : FsResults :=
  { scan_path := "/s", total_files := 3, total_dirs := 0, total_size_bytes := 6000
    files_by_type := [(".pdf", 3)], files_by_category := [("documents", 3)]
    size_by_category := [("documents", 6000)]
    directories := [("root", ⟨2, 4000, 0⟩), ("a/b/c/d/e/f/g", ⟨1, 2000, 7⟩)]
    duplicates := [⟨7, 2, 2000, ["/s/a.pdf", "/s/b.pdf"]⟩]
    organization_issues := []
    file_paths := []
    depth_analysis :=
      { avg_depth := 3, max_depth := 6, deep_folders := [⟨"a/b/c/d/e/f/g", 6, 1⟩]
        shallow_folders := [], optimal_depth := 3, depth_distribution := [(0, 1), (6, 1)] }
    naming_patterns := ⟨0, 0, 0, 0, 0, 0, 0⟩
    recommendations := [], scan_complete := false }

/-- Claim C3 (counterexample): On a source with both a duplicate group
(priority `high`) and an over-deep folder structure (priority `medium`),
the filesystem synthesizer outputs `['medium', 'high']`: the `high`
recommendation comes *after* the `medium` one, so the per-source list is
not sorted by priority descending as the claim states. -/
theorem C3_counterexample :
    ((generate_file_recommendations c3Input).map (fun r => r.priority) =
        ["medium", "high"]) ∧
      ¬ List.Sorted recClaimGe (generate_file_recommendations c3Input) := by
  have heval : generate_file_recommendations c3Input =
      [⟨"medium", "folder_structure", 1, "4-8 hours", "medium"⟩,
       ⟨"high", "duplicate_cleanup", 1/2, "2-4 hours", "easy"⟩] := by
    unfold generate_file_recommendations c3Input
    norm_num [sortByPriorityStr, List.insertionSort, List.orderedInsert,
      lookupCount, recStrGe, List.find?,
      eq_false (by decide : ¬("documents" : String) = "other")]
    decide
  rw [heval]
  refine ⟨rfl, ?_⟩
  intro h
  have h2 := (List.sorted_cons.mp h).1 _ (List.mem_cons_self _ _)
  rcases h2 with h3 | ⟨h3, _⟩
  · simp [recKey, priorityOrderVal] at h3
  · simp [recKey, priorityOrderVal] at h3

/-! ## Claim C1 -/

/-- What the coordinator is proved to do when module `B`'s report is
complete: `B`'s findings land in their severity buckets, `B`'s
recommendations appear in the merged ranked list, and everything in the
consolidated result traces back to a module whose report sealed complete
(so a module sealed incomplete contributes nothing).  The functions
involved are total, so the run produces a value — it cannot raise. -/
def C1Prop (e f c : Option ModuleResult) (B : ModuleResult) : Prop :=
  (∀ i ∈ B.organization_issues,
    combinedOf B i ∈
      consolidatedGet (run_full_analysis e f c).consolidated_findings
        (severityBucket i.severity)) ∧
  (∀ r ∈ B.recommendations,
    tagSource B r ∈ (run_full_analysis e f c).prioritized_recommendations) ∧
  (∀ q x, x ∈ consolidatedGet (run_full_analysis e f c).consolidated_findings q →
    ∃ m, some m ∈ [e, f, c] ∧ m.scan_complete = true ∧
      ∃ i ∈ m.organization_issues, x = combinedOf m i) ∧
  (∀ x ∈ (run_full_analysis e f c).prioritized_recommendations,
    ∃ m, some m ∈ [e, f, c] ∧ m.scan_complete = true ∧
      ∃ r ∈ m.recommendations, x = tagSource m r)

/-- Claim C1 (amended): If one module's report seals with completion flag
false and another's seals with completion flag true, the consolidated
result contains the successful module's findings and recommendations, the
failed module contributes nothing, and the run produces a value (the
embedded pipeline is total, so no exception escapes).  The original
claim's further requirement — that the failed scanner be recorded in a
`failed sources` list — is dropped: the coordinator maintains no such
list (see the counterexample). -/
theorem C1_failure_tolerance_amended (e f c : Option ModuleResult) (A B : ModuleResult)
    (_hA : some A ∈ [e, f, c]) (_hAf : A.scan_complete = false)
    (hB : some B ∈ [e, f, c]) (hBt : B.scan_complete = true) :
    C1Prop e f c B := by
  have hcf : (run_full_analysis e f c).consolidated_findings =
      consolidate_findings [e, f, c] := rfl
  have hpr : (run_full_analysis e f c).prioritized_recommendations =
      create_prioritized_recommendations [e, f, c] := rfl
  refine ⟨?_, ?_, ?_, ?_⟩
  · intro i hi
    rw [hcf, consolidate_findings_eq_modulesFold]
    exact mem_modulesFold_self [e, f, c] B hB hBt i hi emptyConsolidated keysOk_empty
  · intro r hr
    rw [hpr]
    exact (mem_create_prioritized_iff _ _).mpr
      (mem_mergedRecommendations [e, f, c] B hB hBt r hr)
  · intro q x hx
    rw [hcf, consolidate_findings_eq_modulesFold] at hx
    rcases mem_modulesFold_src [e, f, c] q x emptyConsolidated hx with h | h
    · rw [consolidatedGet_empty] at h
      simp at h
    · exact h
  · intro x hx
    rw [hpr] at hx
    exact mem_mergedRecommendations_src [e, f, c] x
      ((mem_create_prioritized_iff [e, f, c] x).mp hx)

/-- A Google Drive module whose scan failed (sealed incomplete). -/
def c1A : ModuleResult :=
  ⟨some "google_drive", false, [⟨"high", "high_storage_usage"⟩],
   [⟨"high", "storage_optimization", 1/2, "2-4 hours", "easy"⟩]⟩

/-- A filesystem module whose scan succeeded (the filesystem results dict
carries no `provider` key). -/
def c1B : ModuleResult :=
  ⟨none, true, [⟨"medium", "folder_depth_too_deep"⟩],
   [⟨"medium", "folder_structure", 1, "4-8 hours", "medium"⟩]⟩

theorem C1_witness :
    c1A.scan_complete = false ∧ c1B.scan_complete = true ∧
      C1Prop none (some c1B) (some c1A) c1B :=
  ⟨rfl, rfl,
    C1_failure_tolerance_amended none (some c1B) (some c1A) c1A c1B (by simp) rfl
      (by simp) rfl⟩

/-- The only way the coordinator's output could name a source inside the
consolidated result: some severity bucket holds an entry whose `module`
tag is that source. -/
def recordsFailedSource (r : AnalysisResults) (src : String) : Prop :=
  ∃ k, ∃ x ∈ consolidatedGet r.consolidated_findings k, x.module = src

/-- Claim C1 (counterexample): Run the coordinator with a failed Google
Drive module and a successful filesystem module.  The successful module's
finding and recommendation are present and the run terminates with a
value, but the failed scanner is recorded nowhere: no consolidated bucket
carries an entry tagged with its provider, and the result dict has no
failed-sources key at all — the claim's `failed sources` requirement is
false on this input. -/
theorem C1_counterexample :
    (combinedOf c1B ⟨"medium", "folder_depth_too_deep"⟩ ∈
      consolidatedGet
        (run_full_analysis none (some c1B) (some c1A)).consolidated_findings
        "medium_priority_issues") ∧
    (tagSource c1B ⟨"medium", "folder_structure", 1, "4-8 hours", "medium"⟩ ∈
      (run_full_analysis none (some c1B) (some c1A)).prioritized_recommendations) ∧
    ¬ recordsFailedSource (run_full_analysis none (some c1B) (some c1A))
        "google_drive" ∧
    "failed_sources" ∉ analysisResultKeys := by
  refine ⟨?_, ?_, ?_, by decide⟩
  · have h := mem_modulesFold_self [none, some c1B, some c1A] c1B (by simp) rfl
      ⟨"medium", "folder_depth_too_deep"⟩ (by simp [c1B]) emptyConsolidated keysOk_empty
    exact h
  · exact (mem_create_prioritized_iff [none, some c1B, some c1A] _).mpr
      (mem_mergedRecommendations [none, some c1B, some c1A] c1B (by simp) rfl _
        (by simp [c1B]))
  · rintro ⟨k, x, hx, hmod⟩
    have hsrc := mem_modulesFold_src [none, some c1B, some c1A] k x emptyConsolidated hx
    rcases hsrc with h | ⟨m, hm, hc, i, hi, hx'⟩
    · rw [consolidatedGet_empty] at h
      simp at h
    · have hmB : m = c1B := by
        rcases List.mem_cons.mp hm with h' | h'
        · exact absurd h' (by simp)
        · rcases List.mem_cons.mp h' with h'' | h''
          · exact Option.some_injective _ h''
          · rcases List.mem_cons.mp h'' with h3 | h3
            · exfalso
              have h4 : c1A.scan_complete = true := by
                rw [show m = c1A from Option.some_injective _ h3] at hc
                exact hc
              simp [c1A] at h4
            · simp at h3
      subst hmB
      rw [hx'] at hmod
      simp [combinedOf, c1B] at hmod

/-! ## Claim C5 -/

/-- Evaluation of `_detect_drive_issues` when the uncategorized guard
cannot trip the description's division (fraction below the threshold or
`total_files` positive): three independent, appended rules. -/
theorem detect_drive_issues_ok (r : DriveResults)
    (h : ¬((1 : ℚ)/5 <
        (lookupCount r.files_by_category "other" : ℚ) / (max r.total_files 1 : ℚ) ∧
      r.total_files = 0)) :
    detect_drive_issues r = .ok
      (((if 80 < ((r.quota_info.map (fun q => q.usage_percent)).getD 0) then
          [(⟨"high", "high_storage_usage"⟩ : Finding)] else []) ++
        (if (1 : ℚ)/5 <
            (lookupCount r.files_by_category "other" : ℚ) / (max r.total_files 1 : ℚ)
          then [(⟨"medium", "many_uncategorized_files"⟩ : Finding)] else [])) ++
       (if 50 < r.shared_files.length then
          [(⟨"medium", "excessive_shared_files"⟩ : Finding)] else [])) := by
  unfold detect_drive_issues
  simp only []
  by_cases hcond : (1 : ℚ)/5 <
      (lookupCount r.files_by_category "other" : ℚ) / (max r.total_files 1 : ℚ)
  · have htf : ¬ r.total_files = 0 := fun h0 => h ⟨hcond, h0⟩
    rw [if_pos hcond, if_pos hcond, if_neg htf]
    by_cases hsh : 50 < r.shared_files.length <;> simp [Except.map, hsh]
  · rw [if_neg hcond, if_neg hcond]
    by_cases hsh : 50 < r.shared_files.length <;> simp [Except.map, hsh]

/-- Claim C5: For every drive scan with quota data (an explicit, non-zero
limit), the `high_storage_usage` finding is emitted iff the usage
fraction strictly exceeds `0.80` — at exactly 80.0% nothing is emitted —
and when emitted its severity is `high`.  The side condition
`uncategorized ≤ total_files` holds for every reachable scan (each
uncategorized file is counted in `total_files`) and rules out the
unrelated uncategorized-rule division. -/
theorem C5_high_storage_threshold (u l uid tf tfo : Nat) (cats : CountMap)
    (shared : List String) (hl : l ≠ 0) (hc : lookupCount cats "other" ≤ tf) :
    ∃ q, mkQuotaInfo ⟨some l, some u, some uid⟩ = .ok q ∧
      ∃ issues, detect_drive_issues ⟨tf, tfo, cats, shared, some q⟩ = .ok issues ∧
        (((⟨"high", "high_storage_usage"⟩ : Finding) ∈ issues) ↔
          (4 : ℚ)/5 < (u : ℚ) / (l : ℚ)) ∧
        (∀ fi ∈ issues, fi.issue = "high_storage_usage" → fi.severity = "high") := by
  refine ⟨⟨l, u, uid, ((u : ℚ) / (l : ℚ)) * 100⟩, by simp [mkQuotaInfo, hl], ?_⟩
  have hguard : ¬((1 : ℚ)/5 < (lookupCount cats "other" : ℚ) / (max tf 1 : ℚ) ∧
      tf = 0) := by
    rintro ⟨hcond, h0⟩
    subst h0
    have h1 : lookupCount cats "other" = 0 := Nat.le_zero.mp hc
    rw [h1] at hcond
    norm_num at hcond
  refine ⟨_, detect_drive_issues_ok ⟨tf, tfo, cats, shared, some _⟩ hguard, ?_, ?_⟩
  · have hiff : ((80 : ℚ) < ((u : ℚ) / (l : ℚ)) * 100) ↔
        (4 : ℚ)/5 < (u : ℚ) / (l : ℚ) := by
      constructor <;> intro h <;> linarith
    rw [← hiff]
    simp only [Option.map_some', Option.getD_some]
    by_cases h80 : (80 : ℚ) < ((u : ℚ) / (l : ℚ)) * 100
    · rw [if_pos h80]
      simp [h80]
    · rw [if_neg h80]
      simp only [List.nil_append]
      constructor
      · intro hmem
        exfalso
        rcases List.mem_append.mp hmem with hm | hm
        · split_ifs at hm <;> simp_all
        · split_ifs at hm <;> simp_all
      · intro hcontr
        exact absurd hcontr h80
  · intro fi hfi hissue
    simp only [Option.map_some', Option.getD_some] at hfi
    rcases List.mem_append.mp hfi with hm | hm
    · rcases List.mem_append.mp hm with h1 | h1
      · split_ifs at h1 <;> simp_all
      · split_ifs at h1 <;> simp_all
    · split_ifs at hm <;> simp_all

theorem C5_witness :
    (1000 : Nat) ≠ 0 ∧ lookupCount [] "other" ≤ 10 ∧
      (∃ q, mkQuotaInfo ⟨some 1000, some 801, some 801⟩ = .ok q ∧
        ∃ issues, detect_drive_issues ⟨10, 0, [], [], some q⟩ = .ok issues ∧
          (((⟨"high", "high_storage_usage"⟩ : Finding) ∈ issues) ↔
            (4 : ℚ)/5 < ((801 : Nat) : ℚ) / ((1000 : Nat) : ℚ)) ∧
          (∀ fi ∈ issues, fi.issue = "high_storage_usage" → fi.severity = "high")) :=
  ⟨by decide, by decide,
    C5_high_storage_threshold 801 1000 801 10 0 [] [] (by decide) (by decide)⟩

/-! ## Claim C6 -/

/-- Claim C6: For every category with health percentage `p`, the synthesized
weekly saving equals the category baseline times a waste factor times an
optimization factor: `p < 40` gives `0.7` and `0.6`, `40 ≤ p < 70` gives
`0.4` and `0.5`, `p ≥ 70` gives `0.15` and `0.4`; an entry is dropped
exactly when that product fails to clear the `0.5` hours/week floor, and
no recommendation below the floor appears in the output. -/
theorem C6_time_savings (pcts : List (String × ℚ)) (category : String) (weekly : Nat)
    (descr : String) (_hmem : (category, weekly, descr) ∈ timeAllocations) :
    ((lookupPct pcts category < 40 →
        wasteOptFactors (lookupPct pcts category) = (7/10, 6/10)) ∧
      (40 ≤ lookupPct pcts category → lookupPct pcts category < 70 →
        wasteOptFactors (lookupPct pcts category) = (4/10, 5/10)) ∧
      (70 ≤ lookupPct pcts category →
        wasteOptFactors (lookupPct pcts category) = (15/100, 4/10))) ∧
    (∀ rec, savingEntryFor pcts category weekly descr = some rec →
      rec.time_savings =
        (weekly : ℚ) * (wasteOptFactors (lookupPct pcts category)).1 *
          (wasteOptFactors (lookupPct pcts category)).2) ∧
    (savingEntryFor pcts category weekly descr = none ↔
      (weekly : ℚ) * (wasteOptFactors (lookupPct pcts category)).1 *
        (wasteOptFactors (lookupPct pcts category)).2 ≤ 1/2) ∧
    (∀ rec ∈ calculate_time_savings pcts, 1/2 < rec.time_savings) := by
  refine ⟨⟨?_, ?_, ?_⟩, ?_, ?_, ?_⟩
  · intro h
    unfold wasteOptFactors
    rw [if_pos h]
  · intro h1 h2
    unfold wasteOptFactors
    rw [if_neg (by linarith), if_pos h2]
  · intro h
    unfold wasteOptFactors
    rw [if_neg (by linarith), if_neg (by linarith)]
  · intro rec hrec
    unfold savingEntryFor at hrec
    simp only [] at hrec
    split_ifs at hrec with h h2 <;>
      first
      | (simp only [Option.some.injEq] at hrec
         rw [← hrec])
      | simp at hrec
  · unfold savingEntryFor
    simp only []
    split_ifs with h
    · simp only [reduceCtorEq, false_iff, not_le]
      linarith [h]
    · simp only [true_iff]
      linarith [not_lt.mp h]
  · intro rec hrec
    have hmem2 : rec ∈ timeAllocations.filterMap
        (fun t => savingEntryFor pcts t.1 t.2.1 t.2.2) :=
      (List.perm_insertionSort _ _).mem_iff.mp hrec
    obtain ⟨t, _, hsome⟩ := List.mem_filterMap.mp hmem2
    unfold savingEntryFor at hsome
    simp only [] at hsome
    split_ifs at hsome with h h2 <;>
      first
      | (simp only [Option.some.injEq] at hsome
         rw [← hsome]
         exact h)
      | simp at hsome

theorem C6_witness :
    ("documents", 12, "hours on document drafting") ∈ timeAllocations ∧
      (((lookupPct [("documents", 30)] "documents" < 40 →
          wasteOptFactors (lookupPct [("documents", 30)] "documents") =
            (7/10, 6/10)) ∧
        (40 ≤ lookupPct [("documents", 30)] "documents" →
          lookupPct [("documents", 30)] "documents" < 70 →
          wasteOptFactors (lookupPct [("documents", 30)] "documents") =
            (4/10, 5/10)) ∧
        (70 ≤ lookupPct [("documents", 30)] "documents" →
          wasteOptFactors (lookupPct [("documents", 30)] "documents") =
            (15/100, 4/10))) ∧
      (∀ rec, savingEntryFor [("documents", 30)] "documents" 12
          "hours on document drafting" = some rec →
        rec.time_savings =
          ((12 : Nat) : ℚ) *
            (wasteOptFactors (lookupPct [("documents", 30)] "documents")).1 *
            (wasteOptFactors (lookupPct [("documents", 30)] "documents")).2) ∧
      (savingEntryFor [("documents", 30)] "documents" 12
          "hours on document drafting" = none ↔
        ((12 : Nat) : ℚ) *
            (wasteOptFactors (lookupPct [("documents", 30)] "documents")).1 *
            (wasteOptFactors (lookupPct [("documents", 30)] "documents")).2 ≤ 1/2) ∧
      (∀ rec ∈ calculate_time_savings [("documents", 30)], 1/2 < rec.time_savings)) :=
  ⟨by decide,
    C6_time_savings [("documents", 30)] "documents" 12 "hours on document drafting"
      (by decide)⟩

/-! ## Claim C9 -/

/-- The `deep_folders` test of `_analyze_depth`. -/
def isDeepFolder (p : String × List DirFileRecord) : Bool := 6 ≤ countSlash p.1

/-- The `shallow_folders` test (the `elif` branch). -/
def isShallowFolder (p : String × List DirFileRecord) : Bool :=
  ¬ 6 ≤ countSlash p.1 ∧ countSlash p.1 ≤ 1 ∧ 20 < p.2.length

/-- The record appended for a classified location. -/
def folderRecordOf (p : String × List DirFileRecord) : FolderRecord :=
  ⟨p.1, countSlash p.1, p.2.length⟩

theorem analyze_depth_folds (ds : List (String × List DirFileRecord)) :
    (analyze_depth ds).deep_folders =
        (ds.filter isDeepFolder).map folderRecordOf ∧
      (analyze_depth ds).shallow_folders =
        (ds.filter isShallowFolder).map folderRecordOf := by
  have h : ∀ acc : List FolderRecord × List FolderRecord,
      ds.foldl
        (fun (acc : List FolderRecord × List FolderRecord) p =>
          let depth := countSlash p.1
          if 6 ≤ depth then (acc.1 ++ [⟨p.1, depth, p.2.length⟩], acc.2)
          else if depth ≤ 1 ∧ 20 < p.2.length then
            (acc.1, acc.2 ++ [⟨p.1, depth, p.2.length⟩])
          else acc) acc =
      (acc.1 ++ (ds.filter isDeepFolder).map folderRecordOf,
       acc.2 ++ (ds.filter isShallowFolder).map folderRecordOf) := by
    induction ds with
    | nil => intro acc; simp
    | cons p rest ih =>
      intro acc
      simp only [List.foldl_cons, List.filter_cons]
      by_cases h1 : 6 ≤ countSlash p.1
      · rw [if_pos h1]
        rw [ih]
        simp [isDeepFolder, isShallowFolder, folderRecordOf, h1, List.append_assoc]
      · rw [if_neg h1]
        by_cases h2 : countSlash p.1 ≤ 1 ∧ 20 < p.2.length
        · rw [if_pos h2]
          rw [ih]
          simp [isDeepFolder, isShallowFolder, folderRecordOf, h1, h2,
            List.append_assoc]
        · rw [if_neg h2]
          rw [ih]
          simp [isDeepFolder, isShallowFolder, folderRecordOf, h1, h2]
  exact ⟨by show (ds.foldl _ ([], [])).1 = _; rw [h]; simp,
         by show (ds.foldl _ ([], [])).2 = _; rw [h]; simp⟩

/-- Claim C9: Structure analysis measures a location's depth as the number
of `/` separators of its `current_dir` string (so the scan root, recorded
as `'root'`, has depth 0); a location is classified "too deep" exactly
when its depth is at least 6 and "too shallow and crowded" exactly when
its depth is at most 1 and its (processed) entry count exceeds 20; the
maximum depth over an empty structure is 0. -/
theorem C9_depth_analysis (ds : List (String × List DirFileRecord)) :
    countSlash "root" = 0 ∧
      (analyze_depth []).max_depth = 0 ∧
      (∀ p ∈ ds,
        (folderRecordOf p ∈ (analyze_depth ds).deep_folders ↔ 6 ≤ countSlash p.1)) ∧
      (∀ p ∈ ds,
        (folderRecordOf p ∈ (analyze_depth ds).shallow_folders ↔
          (countSlash p.1 ≤ 1 ∧ 20 < p.2.length))) := by
  obtain ⟨hdeep, hshallow⟩ := analyze_depth_folds ds
  refine ⟨by decide, rfl, ?_, ?_⟩
  · intro p hp
    rw [hdeep]
    constructor
    · intro hmem
      obtain ⟨q, hq, hfq⟩ := List.mem_map.mp hmem
      have hq2 := (List.mem_filter.mp hq).2
      have hdepth : countSlash q.1 = countSlash p.1 := by
        have : q.1 = p.1 := congrArg FolderRecord.path hfq
        rw [this]
      simp only [isDeepFolder, decide_eq_true_eq] at hq2
      rw [hdepth] at hq2
      exact hq2
    · intro hcond
      exact List.mem_map_of_mem folderRecordOf
        (List.mem_filter.mpr ⟨hp, by simpa [isDeepFolder] using hcond⟩)
  · intro p hp
    rw [hshallow]
    constructor
    · intro hmem
      obtain ⟨q, hq, hfq⟩ := List.mem_map.mp hmem
      have hq2 := (List.mem_filter.mp hq).2
      have h1 : q.1 = p.1 := congrArg FolderRecord.path hfq
      have h2 : q.2.length = p.2.length := congrArg FolderRecord.file_count hfq
      simp only [isShallowFolder, decide_eq_true_eq] at hq2
      rw [h1, h2] at hq2
      exact ⟨hq2.2.1, hq2.2.2⟩
    · intro hcond
      refine List.mem_map_of_mem folderRecordOf (List.mem_filter.mpr ⟨hp, ?_⟩)
      simp only [isShallowFolder, decide_eq_true_eq]
      exact ⟨by omega, hcond.1, hcond.2⟩

/-- A six-separator location with one file, plus a crowded root with 21
files. -/
def c9Crowded : List DirFileRecord :=
  (List.range 21).map (fun i => ⟨"f", i, "other"⟩)

theorem C9_witness :
    countSlash "root" = 0 ∧
      (analyze_depth []).max_depth = 0 ∧
      (∀ p ∈ [("a/b/c/d/e/f/g", [(⟨"x.pdf", 9, "documents"⟩ : DirFileRecord)]),
              ("root", c9Crowded)],
        (folderRecordOf p ∈
          (analyze_depth [("a/b/c/d/e/f/g", [(⟨"x.pdf", 9, "documents"⟩ : DirFileRecord)]),
              ("root", c9Crowded)]).deep_folders ↔ 6 ≤ countSlash p.1)) ∧
      (∀ p ∈ [("a/b/c/d/e/f/g", [(⟨"x.pdf", 9, "documents"⟩ : DirFileRecord)]),
              ("root", c9Crowded)],
        (folderRecordOf p ∈
          (analyze_depth [("a/b/c/d/e/f/g", [(⟨"x.pdf", 9, "documents"⟩ : DirFileRecord)]),
              ("root", c9Crowded)]).shallow_folders ↔
          (countSlash p.1 ≤ 1 ∧ 20 < p.2.length))) :=
  C9_depth_analysis
    [("a/b/c/d/e/f/g", [(⟨"x.pdf", 9, "documents"⟩ : DirFileRecord)]),
     ("root", c9Crowded)]

/-! ## Claim C4 -/

theorem walkFold_empty_files (scanPath : String) (maxFiles : Nat)
    (walk : List WalkDir) (hempty : ∀ d ∈ walk, d.files = []) :
    walkFold scanPath maxFiles walk = initWalkState := by
  unfold walkFold
  induction walk with
  | nil => rfl
  | cons d rest ih =>
    have hd : d.files = [] := hempty d (List.mem_cons_self _ _)
    simp only [List.foldl_cons]
    rw [show processDir scanPath maxFiles initWalkState d = initWalkState by
      simp [processDir, hd, processFiles]]
    exact ih (fun d' hd' => hempty d' (List.mem_cons_of_mem _ hd'))

/-- Claim C4 (amended): A source that yields zero entries produces a report
sealed with completion flag true, an empty recommendation list, and no
division-by-zero anywhere (the naming-percentage denominator is guarded
to 1) — but the findings list is *not* empty: the missing-dates rule
compares the 0% date fraction against 10% and emits exactly one
low-severity `missing_dates_in_filenames` finding. -/
theorem C4_empty_source_amended (scanPath : String) (maxFiles : Nat)
    (walk : List WalkDir) (hempty : ∀ d ∈ walk, d.files = []) :
    (scan_filesystem scanPath walk maxFiles).scan_complete = true ∧
      (scan_filesystem scanPath walk maxFiles).recommendations = [] ∧
      (scan_filesystem scanPath walk maxFiles).organization_issues =
        [⟨"low", "missing_dates_in_filenames"⟩] ∧
      (scan_filesystem scanPath walk maxFiles).total_files = 0 ∧
      (scan_filesystem scanPath walk maxFiles).duplicates = [] ∧
      (∀ sample : List FileRecord, namingDenom sample ≠ 0) := by
  have hfold := walkFold_empty_files scanPath maxFiles walk hempty
  refine ⟨?_, ?_, ?_, ?_, ?_, ?_⟩
  · rfl
  · show generate_file_recommendations _ = []
    simp [scan_filesystem, hfold, initWalkState, detect_organization_issues,
      analyze_depth, analyze_naming_patterns, namingDenom, mkDuplicates, lookupKey,
      lookupCount, generate_file_recommendations, sortByPriorityStr, initNamingCounts]
  · show detect_organization_issues _ = _
    simp [scan_filesystem, hfold, initWalkState, detect_organization_issues,
      analyze_depth, analyze_naming_patterns, namingDenom, mkDuplicates, lookupKey,
      initNamingCounts]
  · simp [scan_filesystem, hfold, initWalkState]
  · simp [scan_filesystem, hfold, initWalkState, mkDuplicates]
  · intro sample
    unfold namingDenom
    split_ifs with h
    · norm_num
    · have : sample.length ≠ 0 := fun h0 => h (List.length_eq_zero.mp h0)
      exact_mod_cast Nat.cast_ne_zero.mpr this

theorem C4_witness :
    (∀ d ∈ [(⟨"root", []⟩ : WalkDir)], d.files = []) ∧
      ((scan_filesystem "/s" [(⟨"root", []⟩ : WalkDir)] 10000).scan_complete = true ∧
        (scan_filesystem "/s" [(⟨"root", []⟩ : WalkDir)] 10000).recommendations = [] ∧
        (scan_filesystem "/s" [(⟨"root", []⟩ : WalkDir)] 10000).organization_issues =
          [⟨"low", "missing_dates_in_filenames"⟩] ∧
        (scan_filesystem "/s" [(⟨"root", []⟩ : WalkDir)] 10000).total_files = 0 ∧
        (scan_filesystem "/s" [(⟨"root", []⟩ : WalkDir)] 10000).duplicates = [] ∧
        (∀ sample : List FileRecord, namingDenom sample ≠ 0)) :=
  ⟨by simp, C4_empty_source_amended "/s" 10000 [⟨"root", []⟩] (by simp)⟩

/-- Claim C4 (counterexample): On the empty source the report seals
complete with no recommendations, but the findings list is
`[{'severity': 'low', 'issue': 'missing_dates_in_filenames'}]`, not `[]`
as the claim states. -/
theorem C4_counterexample :
    (scan_filesystem "/s" [] 10000).scan_complete = true ∧
      (scan_filesystem "/s" [] 10000).recommendations = [] ∧
      (scan_filesystem "/s" [] 10000).organization_issues =
        [⟨"low", "missing_dates_in_filenames"⟩] ∧
      (scan_filesystem "/s" [] 10000).organization_issues ≠ [] := by
  refine ⟨rfl, ?_, ?_, ?_⟩
  · show generate_file_recommendations _ = []
    simp [scan_filesystem, walkFold, initWalkState, detect_organization_issues,
      analyze_depth, analyze_naming_patterns, namingDenom, mkDuplicates, lookupKey,
      lookupCount, generate_file_recommendations, sortByPriorityStr, initNamingCounts]
  · show detect_organization_issues _ = _
    simp [scan_filesystem, walkFold, initWalkState, detect_organization_issues,
      analyze_depth, analyze_naming_patterns, namingDenom, mkDuplicates, lookupKey,
      initNamingCounts]
  · show detect_organization_issues _ ≠ _
    simp [scan_filesystem, walkFold, initWalkState, detect_organization_issues,
      analyze_depth, analyze_naming_patterns, namingDenom, mkDuplicates, lookupKey,
      initNamingCounts]

/-! ## Claim C7 -/

/-- Claim C7 (amended): The detectors guard their divisions: the filesystem
naming-pattern denominator is forced to 1 on an empty sample, and the
drive uncategorized guard divides by `max(total_files, 1)`, so on every
reachable input (`uncategorized ≤ total_files`) drive issue detection
completes without raising.  Two divergences from the original claim
remain: the missing-dates rule still *emits* a finding when the sample is
empty (see the counterexample), and an explicit quota limit of 0 makes
the usage-percent computation of `scan_google_drive` raise
`ZeroDivisionError` (caught only at the scanner boundary). -/
theorem C7_division_guards_amended (sample : List FileRecord) (r : DriveResults)
    (hr : lookupCount r.files_by_category "other" ≤ r.total_files) :
    namingDenom sample ≠ 0 ∧
      (∃ issues, detect_drive_issues r = .ok issues) ∧
      (∀ u uid : Nat, mkQuotaInfo ⟨some 0, some u, some uid⟩ =
        .error "ZeroDivisionError") := by
  refine ⟨?_, ?_, fun u uid => rfl⟩
  · unfold namingDenom
    split_ifs with h
    · norm_num
    · have h0 : sample.length ≠ 0 := fun h0 => h (List.length_eq_zero.mp h0)
      exact_mod_cast Nat.cast_ne_zero.mpr h0
  · refine ⟨_, detect_drive_issues_ok r ?_⟩
    rintro ⟨hcond, h0⟩
    rw [h0] at hr
    have h1 : lookupCount r.files_by_category "other" = 0 := Nat.le_zero.mp hr
    rw [h1, h0] at hcond
    norm_num at hcond

theorem C7_witness :
    lookupCount (DriveResults.files_by_category ⟨0, 0, [], [], none⟩) "other" ≤
        (DriveResults.total_files ⟨0, 0, [], [], none⟩) ∧
      (namingDenom [] ≠ 0 ∧
        (∃ issues, detect_drive_issues ⟨0, 0, [], [], none⟩ = .ok issues) ∧
        (∀ u uid : Nat, mkQuotaInfo ⟨some 0, some u, some uid⟩ =
          .error "ZeroDivisionError")) :=
  ⟨by decide, C7_division_guards_amended [] ⟨0, 0, [], [], none⟩ (by decide)⟩

/-- Claim C7 (counterexample): With zero entries the naming sample (the
denominator of the date-fraction rule) is empty, yet the detector emits a
`missing_dates_in_filenames` finding for that rule instead of no finding;
and with an explicit quota limit of 0 the usage-percent computation
raises `ZeroDivisionError` instead of quietly skipping the storage
rule. -/
theorem C7_counterexample :
    (scan_filesystem "/s" [] 10000).file_paths = [] ∧
      (scan_filesystem "/s" [] 10000).organization_issues =
        [⟨"low", "missing_dates_in_filenames"⟩] ∧
      mkQuotaInfo ⟨some 0, some 5, some 5⟩ = .error "ZeroDivisionError" := by
  refine ⟨rfl, ?_, rfl⟩
  show detect_organization_issues _ = _
  simp [scan_filesystem, walkFold, initWalkState, detect_organization_issues,
    analyze_depth, analyze_naming_patterns, namingDenom, mkDuplicates, lookupKey,
    initNamingCounts]

/-! ## Claim C8: the processed-entry view of the walk -/

/-- The files of one directory that the walk loop actually processes,
given the loop counter on entry: `break` once the counter reaches the
cap, `continue` on excluded extensions. -/
def processFilesL (maxFiles cnt : Nat) : List FsFile → List FsFile
  | [] => []
  | f :: fs =>
    if maxFiles ≤ cnt then []
    else if isExcludedName f.name then processFilesL maxFiles cnt fs
    else f :: processFilesL maxFiles (cnt + 1) fs

/-- All processed `(current_dir, file)` pairs of the walk, in scan
order. -/
def walkProcessed (maxFiles cnt : Nat) : List WalkDir → List (String × FsFile)
  | [] => []
  | d :: ws =>
    let l := processFilesL maxFiles cnt d.files
    l.map (fun f => (d.dir, f)) ++ walkProcessed maxFiles (cnt + l.length) ws

/-- The full path of a processed entry. -/
def pathOf (scanPath : String) (q : String × FsFile) : String :=
  fullPath scanPath q.1 q.2.name

/-- The fingerprint push a processed entry contributes, if any: entries
at or below 1024 bytes and unreadable entries contribute nothing. -/
def tripleOf (scanPath : String) (q : String × FsFile) : Option (Nat × String × Nat) :=
  if 1024 < q.2.size then
    q.2.content.map (fun h => (h, pathOf scanPath q, q.2.size))
  else none

/-- The scan-order sequence of fingerprint pushes. -/
def hashedTriples (scanPath : String) (maxFiles : Nat) (walk : List WalkDir) :
    List (Nat × String × Nat) :=
  (walkProcessed maxFiles 0 walk).filterMap (tripleOf scanPath)

/-- The `file_paths` record of a processed entry. -/
def recordOf (scanPath : String) (q : String × FsFile) : FileRecord :=
  ⟨pathOf scanPath q, q.2.size, categorize_file (pathOf scanPath q) q.2.name,
   pyLower (pySuffix q.2.name), q.1⟩

/-- Replay a sequence of fingerprint pushes onto a bucket map. -/
def pushAll (l : List (Nat × String × Nat)) (b : List (Nat × List (String × Nat))) :
    List (Nat × List (String × Nat)) :=
  l.foldl (fun acc t => bucketPush t.1 (t.2.1, t.2.2) acc) b

theorem processFile_file_hashes (scanPath dir : String) (st : WalkState) (f : FsFile) :
    (processFile scanPath dir st f).file_hashes =
      match tripleOf scanPath (dir, f) with
      | some t => bucketPush t.1 (t.2.1, t.2.2) st.file_hashes
      | none => st.file_hashes := by
  unfold processFile tripleOf
  simp only []
  by_cases hs : 1024 < f.size
  · rw [if_pos hs, if_pos hs]
    cases f.content <;> rfl
  · rw [if_neg hs, if_neg hs]

theorem processFiles_proj (scanPath dir : String) (maxFiles : Nat) :
    ∀ (fs : List FsFile) (st : WalkState),
      ((processFiles scanPath dir maxFiles st fs).file_count =
        st.file_count + (processFilesL maxFiles st.file_count fs).length) ∧
      ((processFiles scanPath dir maxFiles st fs).file_paths =
        st.file_paths ++
          (processFilesL maxFiles st.file_count fs).map
            (fun f => recordOf scanPath (dir, f))) ∧
      ((processFiles scanPath dir maxFiles st fs).file_hashes =
        pushAll
          (((processFilesL maxFiles st.file_count fs).map (fun f => (dir, f))).filterMap
            (tripleOf scanPath))
          st.file_hashes) := by
  intro fs
  induction fs with
  | nil => intro st; simp [processFiles, processFilesL, pushAll]
  | cons f fs ih =>
    intro st
    by_cases hcap : maxFiles ≤ st.file_count
    · simp [processFiles, processFilesL, hcap, pushAll]
    · by_cases hexc : isExcludedName f.name
      · have h := ih st
        simp only [processFiles, processFilesL, if_neg hcap, if_pos hexc]
        simpa using h
      · have h := ih (processFile scanPath dir st f)
        have hcount : (processFile scanPath dir st f).file_count = st.file_count + 1 :=
          rfl
        have hpaths : (processFile scanPath dir st f).file_paths =
            st.file_paths ++ [recordOf scanPath (dir, f)] := rfl
        simp only [processFiles, processFilesL, if_neg hcap, if_pos hexc,
          if_neg hexc, hcount, hpaths, processFile_file_hashes] at h ⊢
        refine ⟨by rw [h.1, List.length_cons]; omega, ?_, ?_⟩
        · rw [h.2.1]
          simp [List.append_assoc]
        · rw [h.2.2]
          simp only [List.map_cons, List.filterMap_cons]
          cases htr : tripleOf scanPath (dir, f) with
          | none => rfl
          | some t => simp [pushAll]

theorem processDir_proj (scanPath : String) (maxFiles : Nat) (st : WalkState)
    (d : WalkDir) :
    ((processDir scanPath maxFiles st d).file_count =
      st.file_count + (processFilesL maxFiles st.file_count d.files).length) ∧
    ((processDir scanPath maxFiles st d).file_paths =
      st.file_paths ++
        (processFilesL maxFiles st.file_count d.files).map
          (fun f => recordOf scanPath (d.dir, f))) ∧
    ((processDir scanPath maxFiles st d).file_hashes =
      pushAll
        (((processFilesL maxFiles st.file_count d.files).map
          (fun f => (d.dir, f))).filterMap (tripleOf scanPath))
        st.file_hashes) := by
  unfold processDir
  by_cases hd : d.files = []
  · rw [if_pos hd]
    exact processFiles_proj scanPath d.dir maxFiles d.files st
  · rw [if_neg hd]
    exact processFiles_proj scanPath d.dir maxFiles d.files _

theorem walkAux_proj (scanPath : String) (maxFiles : Nat) :
    ∀ (walk : List WalkDir) (st : WalkState),
      ((walk.foldl (processDir scanPath maxFiles) st).file_count =
        st.file_count + (walkProcessed maxFiles st.file_count walk).length) ∧
      ((walk.foldl (processDir scanPath maxFiles) st).file_paths =
        st.file_paths ++
          (walkProcessed maxFiles st.file_count walk).map (recordOf scanPath)) ∧
      ((walk.foldl (processDir scanPath maxFiles) st).file_hashes =
        pushAll
          ((walkProcessed maxFiles st.file_count walk).filterMap (tripleOf scanPath))
          st.file_hashes) := by
  intro walk
  induction walk with
  | nil => intro st; simp [walkProcessed, pushAll]
  | cons d ws ih =>
    intro st
    obtain ⟨hc, hp, hh⟩ := processDir_proj scanPath maxFiles st d
    obtain ⟨ihc, ihp, ihh⟩ := ih (processDir scanPath maxFiles st d)
    simp only [List.foldl_cons, walkProcessed]
    rw [hc] at ihc ihp ihh
    refine ⟨?_, ?_, ?_⟩
    · rw [ihc]
      simp [Nat.add_assoc]
    · rw [ihp, hp]
      simp [List.append_assoc]
    · rw [ihh, hh]
      rw [List.filterMap_append]
      unfold pushAll
      rw [List.foldl_append]

theorem walkFold_file_hashes (scanPath : String) (maxFiles : Nat)
    (walk : List WalkDir) :
    (walkFold scanPath maxFiles walk).file_hashes =
      pushAll (hashedTriples scanPath maxFiles walk) [] := by
  have h := (walkAux_proj scanPath maxFiles walk initWalkState).2.2
  simpa [walkFold, initWalkState, hashedTriples] using h

theorem walkFold_file_paths (scanPath : String) (maxFiles : Nat)
    (walk : List WalkDir) :
    (walkFold scanPath maxFiles walk).file_paths =
      (walkProcessed maxFiles 0 walk).map (recordOf scanPath) := by
  have h := (walkAux_proj scanPath maxFiles walk initWalkState).2.1
  simpa [walkFold, initWalkState] using h

/-! ## Claim C8: bucket-map lemmas -/

/-- Lookup in the fingerprint bucket map. -/
def lookupB (b : List (Nat × List (String × Nat))) (h : Nat) :
    Option (List (String × Nat)) :=
  (b.find? (fun p => p.1 = h)).map (fun p => p.2)

/-- All pushes with fingerprint `h`, in order. -/
def filterTriples (l : List (Nat × String × Nat)) (h : Nat) : List (String × Nat) :=
  (l.filter (fun t => t.1 = h)).map (fun t => (t.2.1, t.2.2))

theorem lookupB_bucketPush (b : List (Nat × List (String × Nat))) (h : Nat)
    (x : String × Nat) (k : Nat) :
    lookupB (bucketPush h x b) k =
      if k = h then some ((lookupB b k).getD [] ++ [x]) else lookupB b k := by
  induction b with
  | nil =>
    by_cases hk : k = h
    · simp [bucketPush, lookupB, List.find?, hk]
    · simp [bucketPush, lookupB, List.find?, hk, Ne.symm hk]
  | cons p rest ih =>
    obtain ⟨h', ms⟩ := p
    by_cases h1 : h' = h
    · subst h1
      by_cases h2 : k = h'
      · simp [bucketPush, lookupB, List.find?, h2]
      · simp [bucketPush, lookupB, List.find?, h2, Ne.symm h2]
    · simp only [bucketPush, if_neg h1]
      by_cases h2 : h' = k
      · subst h2
        simp [lookupB, List.find?, h1]
      · by_cases h3 : k = h <;>
          simp_all [lookupB, List.find?, Ne.symm h2]

theorem lookupB_pushAll (l : List (Nat × String × Nat)) :
    ∀ (b : List (Nat × List (String × Nat))) (k : Nat),
      lookupB (pushAll l b) k =
        if filterTriples l k = [] then lookupB b k
        else some ((lookupB b k).getD [] ++ filterTriples l k) := by
  induction l with
  | nil => intro b k; simp [pushAll, filterTriples]
  | cons t ts ih =>
    intro b k
    have hstep : pushAll (t :: ts) b = pushAll ts (bucketPush t.1 (t.2.1, t.2.2) b) := by
      simp [pushAll]
    rw [hstep, ih]
    by_cases hk : k = t.1
    · have hfil : filterTriples (t :: ts) k = (t.2.1, t.2.2) :: filterTriples ts k := by
        simp [filterTriples, hk]
      rw [hfil]
      rw [lookupB_bucketPush, if_pos hk]
      by_cases hts : filterTriples ts k = []
      · simp [hts]
      · simp [hts]
    · have hfil : filterTriples (t :: ts) k = filterTriples ts k := by
        have hne : ¬ t.1 = k := fun h => hk h.symm
        simp [filterTriples, hne]
      rw [hfil, lookupB_bucketPush, if_neg hk]

theorem keys_bucketPush (b : List (Nat × List (String × Nat))) (h : Nat)
    (x : String × Nat) :
    (bucketPush h x b).map Prod.fst =
      if h ∈ b.map Prod.fst then b.map Prod.fst else b.map Prod.fst ++ [h] := by
  induction b with
  | nil => simp [bucketPush]
  | cons p rest ih =>
    obtain ⟨h', ms⟩ := p
    by_cases h1 : h' = h
    · subst h1
      simp [bucketPush]
    · simp only [bucketPush, if_neg h1, List.map_cons, ih]
      by_cases h2 : h ∈ rest.map Prod.fst <;>
        simp [h2, List.mem_cons, Ne.symm h1]

theorem nodup_keys_bucketPush (b : List (Nat × List (String × Nat))) (h : Nat)
    (x : String × Nat) (hnd : (b.map Prod.fst).Nodup) :
    ((bucketPush h x b).map Prod.fst).Nodup := by
  rw [keys_bucketPush]
  by_cases h2 : h ∈ b.map Prod.fst
  · simpa [h2] using hnd
  · simp only [if_neg h2]
    apply List.Nodup.append hnd (List.nodup_singleton h)
    intro a ha hb
    simp only [List.mem_singleton] at hb
    subst hb
    exact h2 ha

theorem nodup_keys_pushAll (l : List (Nat × String × Nat)) :
    ∀ b, (b.map Prod.fst).Nodup → ((pushAll l b).map Prod.fst).Nodup := by
  induction l with
  | nil => intro b h; simpa [pushAll] using h
  | cons t ts ih =>
    intro b h
    have hstep : pushAll (t :: ts) b = pushAll ts (bucketPush t.1 (t.2.1, t.2.2) b) := by
      simp [pushAll]
    rw [hstep]
    exact ih _ (nodup_keys_bucketPush b t.1 (t.2.1, t.2.2) h)

theorem lookupB_of_mem_nodup (b : List (Nat × List (String × Nat)))
    (hnd : (b.map Prod.fst).Nodup) (h : Nat) (ms : List (String × Nat))
    (hmem : (h, ms) ∈ b) : lookupB b h = some ms := by
  induction b with
  | nil => simp at hmem
  | cons p rest ih =>
    obtain ⟨h', ms'⟩ := p
    rcases List.mem_cons.mp hmem with heq | hmem'
    · obtain ⟨rfl, rfl⟩ := Prod.mk.injEq .. ▸ heq
      simp [lookupB, List.find?]
    · have hne : h' ≠ h := by
        intro heq'
        subst heq'
        have : h' ∈ rest.map Prod.fst := List.mem_map_of_mem Prod.fst hmem'
        simp only [List.map_cons, List.nodup_cons] at hnd
        exact hnd.1 this
      have ih' := ih (by simpa using (List.nodup_cons.mp (by simpa using hnd)).2) hmem'
      simpa [lookupB, List.find?, hne] using ih'

theorem mem_of_lookupB (b : List (Nat × List (String × Nat))) (h : Nat)
    (ms : List (String × Nat)) (hl : lookupB b h = some ms) : (h, ms) ∈ b := by
  unfold lookupB at hl
  cases hf : b.find? (fun p => p.1 = h) with
  | none => rw [hf] at hl; simp at hl
  | some q =>
    rw [hf] at hl
    simp only [Option.map_some', Option.some.injEq] at hl
    have hq := List.find?_some hf
    have hqmem := List.mem_of_find?_eq_some hf
    simp only [decide_eq_true_eq] at hq
    have : q = (h, ms) := by
      obtain ⟨q1, q2⟩ := q
      simp only at hq hl
      rw [hq, hl]
    rw [← this]
    exact hqmem

/-! ## Claim C8: canonical form of the fingerprint buckets -/

theorem lookupB_buckets (scanPath : String) (maxFiles : Nat) (walk : List WalkDir)
    (k : Nat) :
    lookupB (walkFold scanPath maxFiles walk).file_hashes k =
      if filterTriples (hashedTriples scanPath maxFiles walk) k = [] then none
      else some (filterTriples (hashedTriples scanPath maxFiles walk) k) := by
  rw [walkFold_file_hashes, lookupB_pushAll]
  split_ifs with hf <;> simp [lookupB]

/-- The bucket a group reads: `file_hashes[h]`, defaulting to `[]`. -/
def bucketMembers (scanPath : String) (maxFiles : Nat) (walk : List WalkDir)
    (h : Nat) : List (String × Nat) :=
  (lookupB (walkFold scanPath maxFiles walk).file_hashes h).getD []

theorem bucketMembers_eq (scanPath : String) (maxFiles : Nat) (walk : List WalkDir)
    (h : Nat) :
    bucketMembers scanPath maxFiles walk h =
      filterTriples (hashedTriples scanPath maxFiles walk) h := by
  unfold bucketMembers
  rw [lookupB_buckets]
  split_ifs with hf
  · simp [hf]
  · simp

theorem nodup_keys_file_hashes (scanPath : String) (maxFiles : Nat)
    (walk : List WalkDir) :
    ((walkFold scanPath maxFiles walk).file_hashes.map Prod.fst).Nodup := by
  rw [walkFold_file_hashes]
  exact nodup_keys_pushAll _ [] (by simp)

theorem bucket_entry_canonical (scanPath : String) (maxFiles : Nat)
    (walk : List WalkDir) (h : Nat) (ms : List (String × Nat))
    (hmem : (h, ms) ∈ (walkFold scanPath maxFiles walk).file_hashes) :
    ms = filterTriples (hashedTriples scanPath maxFiles walk) h ∧ ms ≠ [] := by
  have hl := lookupB_of_mem_nodup _ (nodup_keys_file_hashes scanPath maxFiles walk)
    h ms hmem
  rw [lookupB_buckets] at hl
  split_ifs at hl with hf
  simp only [Option.some.injEq] at hl
  exact ⟨hl.symm, fun h0 => hf (hl.trans h0)⟩

theorem bucket_entry_of_filter (scanPath : String) (maxFiles : Nat)
    (walk : List WalkDir) (h : Nat)
    (hf : filterTriples (hashedTriples scanPath maxFiles walk) h ≠ []) :
    (h, filterTriples (hashedTriples scanPath maxFiles walk) h) ∈
      (walkFold scanPath maxFiles walk).file_hashes :=
  mem_of_lookupB _ h _ (by rw [lookupB_buckets, if_neg hf])

theorem mem_filterTriples (l : List (Nat × String × Nat)) (h : Nat) (p : String)
    (s : Nat) : (p, s) ∈ filterTriples l h ↔ (h, p, s) ∈ l := by
  unfold filterTriples
  rw [List.mem_map]
  constructor
  · rintro ⟨t, ht, heq⟩
    obtain ⟨ht1, ht2⟩ := List.mem_filter.mp ht
    simp only [decide_eq_true_eq] at ht2
    obtain ⟨t1, t2, t3⟩ := t
    simp only [Prod.mk.injEq] at heq
    obtain ⟨h2, h3⟩ := heq
    subst ht2
    subst h2
    subst h3
    exact ht1
  · intro hmem
    exact ⟨(h, p, s), List.mem_filter.mpr ⟨hmem, by simp⟩, rfl⟩

theorem mem_hashedTriples (scanPath : String) (maxFiles : Nat) (walk : List WalkDir)
    (h : Nat) (p : String) (s : Nat) :
    (h, p, s) ∈ hashedTriples scanPath maxFiles walk ↔
      ∃ q ∈ walkProcessed maxFiles 0 walk,
        1024 < q.2.size ∧ q.2.content = some h ∧ p = pathOf scanPath q ∧
          s = q.2.size := by
  unfold hashedTriples
  rw [List.mem_filterMap]
  constructor
  · rintro ⟨q, hq, htr⟩
    unfold tripleOf at htr
    split_ifs at htr with hs
    · cases hc : q.2.content with
      | none => rw [hc] at htr; simp at htr
      | some ch =>
        rw [hc] at htr
        simp only [Option.map_some', Option.some.injEq, Prod.mk.injEq] at htr
        exact ⟨q, hq, hs, by rw [hc, htr.1], htr.2.1.symm, htr.2.2.symm⟩
  · rintro ⟨q, hq, hs, hc, rfl, rfl⟩
    exact ⟨q, hq, by simp [tripleOf, hs, hc]⟩

theorem mem_bucket_paths (scanPath : String) (maxFiles : Nat) (walk : List WalkDir)
    (h : Nat) (p : String) :
    p ∈ (bucketMembers scanPath maxFiles walk h).map (fun m => m.1) ↔
      ∃ s, (h, p, s) ∈ hashedTriples scanPath maxFiles walk := by
  rw [bucketMembers_eq, List.mem_map]
  constructor
  · rintro ⟨m, hm, rfl⟩
    exact ⟨m.2, (mem_filterTriples _ _ _ _).mp (by simpa using hm)⟩
  · rintro ⟨s, hs⟩
    exact ⟨(p, s), (mem_filterTriples _ _ _ _).mpr hs, rfl⟩

theorem mem_mkDuplicates (bs : List (Nat × List (String × Nat))) (g : DupGroup) :
    g ∈ mkDuplicates bs ↔
      ∃ h ms, (h, ms) ∈ bs ∧ 1 < ms.length ∧
        g = ⟨h, ms.length, ((ms.drop 1).map (fun m => m.2)).sum,
             (ms.map (fun m => m.1)).take 5⟩ := by
  unfold mkDuplicates
  rw [List.mem_filterMap]
  constructor
  · rintro ⟨b, hb, hsome⟩
    split_ifs at hsome with hlen
    · simp only [Option.some.injEq] at hsome
      exact ⟨b.1, b.2, by simpa using hb, hlen, hsome.symm⟩
  · rintro ⟨h, ms, hmem, hlen, rfl⟩
    exact ⟨(h, ms), hmem, by simp [hlen]⟩

theorem scan_filesystem_duplicates (scanPath : String) (walk : List WalkDir)
    (maxFiles : Nat) :
    (scan_filesystem scanPath walk maxFiles).duplicates =
      mkDuplicates (walkFold scanPath maxFiles walk).file_hashes := rfl

theorem one_lt_length_of_two_mem {α : Type} {l : List α} {a b : α} (hab : a ≠ b)
    (ha : a ∈ l) (hb : b ∈ l) : 1 < l.length := by
  cases l with
  | nil => simp at ha
  | cons x xs =>
    cases xs with
    | nil =>
      simp only [List.mem_singleton] at ha hb
      exact absurd (ha.trans hb.symm) hab
    | cons y ys => simp [List.length_cons]

theorem triple_path_mem (scanPath : String) (maxFiles : Nat) (walk : List WalkDir)
    (t : Nat × String × Nat) (ht : t ∈ hashedTriples scanPath maxFiles walk) :
    t.2.1 ∈ (walkProcessed maxFiles 0 walk).map (pathOf scanPath) := by
  obtain ⟨h, p, s⟩ := t
  obtain ⟨q, hq, _, _, rfl, _⟩ := (mem_hashedTriples scanPath maxFiles walk h p s).mp ht
  exact List.mem_map_of_mem (pathOf scanPath) hq

theorem tripleOf_path (scanPath : String) (q : String × FsFile)
    (t : Nat × String × Nat) (htr : tripleOf scanPath q = some t) :
    t.2.1 = pathOf scanPath q := by
  unfold tripleOf at htr
  split_ifs at htr with hs
  cases hc : q.2.content with
  | none => rw [hc] at htr; simp at htr
  | some ch =>
    rw [hc] at htr
    simp only [Option.map_some', Option.some.injEq] at htr
    rw [← htr]

theorem nodup_triple_paths (scanPath : String) (maxFiles : Nat) (walk : List WalkDir)
    (hnd : ((walkProcessed maxFiles 0 walk).map (pathOf scanPath)).Nodup) :
    ((hashedTriples scanPath maxFiles walk).map (fun t => t.2.1)).Nodup := by
  unfold hashedTriples
  generalize (walkProcessed maxFiles 0 walk) = procs at hnd ⊢
  induction procs with
  | nil => simp
  | cons q rest ih =>
    simp only [List.map_cons, List.nodup_cons] at hnd
    rw [List.filterMap_cons]
    cases htr : tripleOf scanPath q with
    | none => exact ih hnd.2
    | some t =>
      simp only [List.map_cons, List.nodup_cons]
      refine ⟨?_, ih hnd.2⟩
      intro hmem
      have hpath : t.2.1 = pathOf scanPath q := tripleOf_path scanPath q t htr
      obtain ⟨t', ht', heq⟩ := List.mem_map.mp hmem
      obtain ⟨q', hq', htr'⟩ := List.mem_filterMap.mp ht'
      have hpath' : t'.2.1 = pathOf scanPath q' := tripleOf_path scanPath q' t' htr'
      apply hnd.1
      rw [← hpath, ← heq, hpath']
      exact List.mem_map_of_mem (pathOf scanPath) hq'

theorem nodup_filterTriples_paths (l : List (Nat × String × Nat)) (h : Nat)
    (hnd : (l.map (fun t => t.2.1)).Nodup) :
    ((filterTriples l h).map (fun m => m.1)).Nodup := by
  unfold filterTriples
  rw [List.map_map]
  have hsub : ((l.filter (fun t => decide (t.1 = h))).map (fun t => t.2.1)).Sublist
      (l.map (fun t => t.2.1)) :=
    List.Sublist.map _ (List.filter_sublist l)
  exact List.Nodup.sublist hsub hnd

theorem exists_member_ne {l : List (String × Nat)}
    (hnd : (l.map (fun m => m.1)).Nodup) (hlen : 1 < l.length) (p : String) :
    ∃ m ∈ l, m.1 ≠ p := by
  cases l with
  | nil => simp at hlen
  | cons a t =>
    cases t with
    | nil => simp at hlen
    | cons b t2 =>
      by_cases hp : a.1 = p
      · refine ⟨b, by simp, ?_⟩
        simp only [List.map_cons, List.nodup_cons] at hnd
        intro hbp
        have hab : a.1 = b.1 := hp.trans hbp.symm
        exact hnd.1 (by rw [hab]; exact List.mem_cons_self _ _)
      · exact ⟨a, List.mem_cons_self _ _, hp⟩

/-- The duplicate-detection invariants of one scan, stated over the
processed entries (`walkProcessed`), the fingerprint buckets
(`bucketMembers`) and the emitted groups. -/
def C8Prop (sp : String) (mf : Nat) (walk : List WalkDir) : Prop :=
  (∀ g ∈ (scan_filesystem sp walk mf).duplicates,
    2 ≤ g.file_count ∧ g.file_count = (bucketMembers sp mf walk g.hash).length) ∧
  (∀ q ∈ walkProcessed mf 0 walk, q.2.size ≤ 1024 →
    (∀ h, pathOf sp q ∉ (bucketMembers sp mf walk h).map (fun m => m.1)) ∧
    (∀ g ∈ (scan_filesystem sp walk mf).duplicates, pathOf sp q ∉ g.paths)) ∧
  (∀ q ∈ walkProcessed mf 0 walk, ∀ q' ∈ walkProcessed mf 0 walk,
    pathOf sp q ≠ pathOf sp q' → 1024 < q.2.size → 1024 < q'.2.size →
    ∀ c, q.2.content = some c → q'.2.content = some c →
    ∃ g ∈ (scan_filesystem sp walk mf).duplicates, g.hash = c ∧
      pathOf sp q ∈ (bucketMembers sp mf walk c).map (fun m => m.1) ∧
      pathOf sp q' ∈ (bucketMembers sp mf walk c).map (fun m => m.1) ∧
      ∀ g' ∈ (scan_filesystem sp walk mf).duplicates,
        pathOf sp q ∈ (bucketMembers sp mf walk g'.hash).map (fun m => m.1) →
        g' = g) ∧
  (∀ q ∈ walkProcessed mf 0 walk,
    (∀ q' ∈ walkProcessed mf 0 walk, pathOf sp q' ≠ pathOf sp q →
      ∀ c, q.2.content = some c → q'.2.content ≠ some c) →
    ∀ g ∈ (scan_filesystem sp walk mf).duplicates,
      pathOf sp q ∉ (bucketMembers sp mf walk g.hash).map (fun m => m.1)) ∧
  (∀ g ∈ (scan_filesystem sp walk mf).duplicates,
    g.total_size_bytes =
        (((bucketMembers sp mf walk g.hash).drop 1).map (fun m => m.2)).sum ∧
      g.paths = ((bucketMembers sp mf walk g.hash).map (fun m => m.1)).take 5)

/-- Claim C8: Duplicate-detection invariants, under the (filesystem-true)
assumption that the processed entries have pairwise-distinct full paths:
every emitted group has at least two members; entries at or below the
1024-byte threshold appear in no bucket and no group; two distinct
above-threshold entries with identical content share exactly one group
(whose fingerprint is their content); an above-threshold entry whose
content is unique is in no group; and each group's wasted-bytes figure is
the sum of the sizes of all bucket members except the first-encountered
one, with the stored paths the first five member paths in scan order. -/
theorem C8_duplicate_invariants (sp : String) (mf : Nat) (walk : List WalkDir)
    (hnd : ((walkProcessed mf 0 walk).map (pathOf sp)).Nodup) :
    C8Prop sp mf walk := by
  have inj : ∀ q ∈ walkProcessed mf 0 walk, ∀ q' ∈ walkProcessed mf 0 walk,
      pathOf sp q = pathOf sp q' → q = q' := by
    intro q hq q' hq' hpp
    exact List.inj_on_of_nodup_map hnd hq hq' hpp
  have hpathmem : ∀ (h : Nat) (p : String),
      p ∈ (bucketMembers sp mf walk h).map (fun m => m.1) →
      ∃ q ∈ walkProcessed mf 0 walk,
        1024 < q.2.size ∧ q.2.content = some h ∧ p = pathOf sp q := by
    intro h p hp
    obtain ⟨s, hs⟩ := (mem_bucket_paths sp mf walk h p).mp hp
    obtain ⟨q, hq, h1, h2, h3, _⟩ := (mem_hashedTriples sp mf walk h p s).mp hs
    exact ⟨q, hq, h1, h2, h3⟩
  have hcanonG : ∀ g ∈ (scan_filesystem sp walk mf).duplicates,
      ∃ ms, ms = filterTriples (hashedTriples sp mf walk) g.hash ∧
        bucketMembers sp mf walk g.hash = ms ∧ 1 < ms.length ∧
        g = ⟨g.hash, ms.length, ((ms.drop 1).map (fun m => m.2)).sum,
             (ms.map (fun m => m.1)).take 5⟩ := by
    intro g hg
    rw [scan_filesystem_duplicates] at hg
    obtain ⟨h, ms, hmem, hlen, hgeq⟩ := (mem_mkDuplicates _ _).mp hg
    obtain ⟨hcanon, _⟩ := bucket_entry_canonical sp mf walk h ms hmem
    have hhash : g.hash = h := by rw [hgeq]
    subst hhash
    exact ⟨ms, hcanon, by rw [bucketMembers_eq, ← hcanon], hlen, hgeq⟩
  refine ⟨?_, ?_, ?_, ?_, ?_⟩
  · intro g hg
    obtain ⟨ms, _, hbm, hlen, hgeq⟩ := hcanonG g hg
    refine ⟨?_, ?_⟩
    · rw [hgeq]
      show 2 ≤ ms.length
      omega
    · rw [hbm]
      rw [hgeq]
  · intro q hq hsmall
    have hbucket : ∀ h, pathOf sp q ∉ (bucketMembers sp mf walk h).map (fun m => m.1) := by
      intro h hp
      obtain ⟨q', hq', hbig, _, hpath⟩ := hpathmem h _ hp
      have : q = q' := inj q hq q' hq' hpath
      subst this
      omega
    refine ⟨hbucket, ?_⟩
    intro g hg hpg
    obtain ⟨ms, _, hbm, _, hgeq⟩ := hcanonG g hg
    apply hbucket g.hash
    rw [hbm]
    have hpaths : g.paths = (ms.map (fun m => m.1)).take 5 := by rw [hgeq]
    rw [hpaths] at hpg
    exact List.mem_of_mem_take hpg
  · intro q hq q' hq' hne hbig hbig' c hc hc'
    have ht : (c, pathOf sp q, q.2.size) ∈ hashedTriples sp mf walk :=
      (mem_hashedTriples sp mf walk c _ _).mpr ⟨q, hq, hbig, hc, rfl, rfl⟩
    have ht' : (c, pathOf sp q', q'.2.size) ∈ hashedTriples sp mf walk :=
      (mem_hashedTriples sp mf walk c _ _).mpr ⟨q', hq', hbig', hc', rfl, rfl⟩
    have hf1 : (pathOf sp q, q.2.size) ∈ filterTriples (hashedTriples sp mf walk) c :=
      (mem_filterTriples _ _ _ _).mpr ht
    have hf2 : (pathOf sp q', q'.2.size) ∈ filterTriples (hashedTriples sp mf walk) c :=
      (mem_filterTriples _ _ _ _).mpr ht'
    have hpairne : (pathOf sp q, q.2.size) ≠ (pathOf sp q', q'.2.size) := by
      intro heq
      exact hne (congrArg Prod.fst heq)
    have hlen : 1 < (filterTriples (hashedTriples sp mf walk) c).length :=
      one_lt_length_of_two_mem hpairne hf1 hf2
    have hfne : filterTriples (hashedTriples sp mf walk) c ≠ [] := by
      intro h0
      rw [h0] at hlen
      simp at hlen
    have hbmem := bucket_entry_of_filter sp mf walk c hfne
    have hg : (⟨c, (filterTriples (hashedTriples sp mf walk) c).length,
        (((filterTriples (hashedTriples sp mf walk) c).drop 1).map
          (fun m => m.2)).sum,
        ((filterTriples (hashedTriples sp mf walk) c).map (fun m => m.1)).take 5⟩ :
          DupGroup) ∈ (scan_filesystem sp walk mf).duplicates := by
      rw [scan_filesystem_duplicates]
      exact (mem_mkDuplicates _ _).mpr ⟨c, _, hbmem, hlen, rfl⟩
    refine ⟨_, hg, rfl, ?_, ?_, ?_⟩
    · exact (mem_bucket_paths sp mf walk c _).mpr ⟨q.2.size, ht⟩
    · exact (mem_bucket_paths sp mf walk c _).mpr ⟨q'.2.size, ht'⟩
    · intro g' hg' hpmem
      obtain ⟨ms', hms', hbm', hlen', hgeq'⟩ := hcanonG g' hg'
      obtain ⟨q0, hq0, _, hc0, hpath0⟩ := hpathmem g'.hash _ hpmem
      have hq0q : q = q0 := inj q hq q0 hq0 hpath0
      subst hq0q
      rw [hc] at hc0
      have hcc : g'.hash = c := by
        have h2 := hc0.symm
        simp only [Option.some.injEq] at h2
        exact h2
      rw [hgeq', hms', hcc]
  · intro q hq huniq g hg hpmem
    obtain ⟨ms, hms, hbm, hlen, hgeq⟩ := hcanonG g hg
    obtain ⟨q0, hq0, hbig0, hc0, hpath0⟩ := hpathmem g.hash _ hpmem
    have hq0q : q = q0 := inj q hq q0 hq0 hpath0
    subst hq0q
    have hndm : ((filterTriples (hashedTriples sp mf walk) g.hash).map
        (fun m => m.1)).Nodup :=
      nodup_filterTriples_paths _ g.hash (nodup_triple_paths sp mf walk hnd)
    have hlen2 : 1 < (filterTriples (hashedTriples sp mf walk) g.hash).length := by
      rw [← hms]
      exact hlen
    obtain ⟨m, hm, hmne⟩ := exists_member_ne hndm hlen2 (pathOf sp q)
    have htm : (g.hash, m.1, m.2) ∈ hashedTriples sp mf walk :=
      (mem_filterTriples _ _ _ _).mp (by simpa using hm)
    obtain ⟨q', hq', _, hcq', hpq', _⟩ :=
      (mem_hashedTriples sp mf walk g.hash m.1 m.2).mp htm
    have hpne : pathOf sp q' ≠ pathOf sp q := by
      rw [← hpq']
      exact hmne
    exact huniq q' hq' hpne g.hash hc0 hcq'
  · intro g hg
    obtain ⟨ms, _, hbm, _, hgeq⟩ := hcanonG g hg
    rw [hbm, hgeq]
    exact ⟨rfl, rfl⟩

/-- A walk with two identical 2000-byte files, one distinct 3000-byte
file and one small 500-byte file. -/
def c8Walk : List WalkDir :=
  [⟨"root",
    [⟨"a.bin", 2000, some 7⟩, ⟨"b.bin", 2000, some 7⟩,
     ⟨"small.bin", 500, some 9⟩, ⟨"c.bin", 3000, some 8⟩]⟩]

theorem C8_witness :
    ((walkProcessed 10000 0 c8Walk).map (pathOf "/s")).Nodup ∧
      C8Prop "/s" 10000 c8Walk :=
  ⟨by decide, C8_duplicate_invariants "/s" 10000 c8Walk (by decide)⟩
